import Mathlib

/-!
Verification development for the MBRT map-query repository: a shallow
embedding, in Lean 4, of the query classification and coordinate
extraction pipeline (coordinate parser, query classifier, geometry
builder, and the six extraction agents), together with theorems about
the behaviour of that pipeline.

Modelling conventions:
* JavaScript strings are modelled as `List Char` (ASCII-oriented;
  `toLowerCase` is modelled on the ASCII range, which covers every
  string the embedded code manipulates).
* JavaScript numbers produced by `parseFloat`/`Number` on decimal
  literals are modelled as exact rationals (`ℚ`); trigonometry is
  modelled over `ℝ` with the sine/cosine functions passed as
  parameters, instantiated with `Real.sin`/`Real.cos`.
* The regular expressions of the source are embedded through a small
  backtracking matcher (`RE`, `matchA`) whose constructs mirror the
  JavaScript regex features actually used (greedy and lazy character
  class quantifiers, alternation, groups, word boundaries, anchors,
  negative lookahead), including the `exec`-loop semantics of the `g`
  flag (`execList`) and leftmost-match search (`findFrom`).
* Collaborator calls (the text-completion service, the routing and
  isochrone HTTP services) are modelled by oracles: the text-completion
  oracle maps the index of the call to either a response string or a
  thrown exception (`Except String String`); the HTTP services, whose
  wrappers catch internally and return null on failure, are modelled as
  `Option`-valued oracles.
-/

/-- ASCII lower-casing of one character, the model of the effect of
JavaScript `toLowerCase` on the strings handled by this program. -/
def lowerChar (c : Char) : Char :=
  if 'A' ≤ c ∧ c ≤ 'Z' then Char.ofNat (c.toNat + 32) else c

/-- A JavaScript string, modelled as a list of characters. -/
abbrev Str := List Char

/-- Lower-case a whole string. -/
def lowerStr (s : Str) : Str := s.map lowerChar

/-- Does `t` start with `n`? -/
def startsWith : Str → Str → Bool
  | _, [] => true
  | [], _ :: _ => false
  | c :: t, d :: n => c = d && startsWith t n

/-- JavaScript `hay.includes(needle)`: contiguous substring test. -/
def hasSub : Str → Str → Bool
  | hay, needle =>
    if startsWith hay needle then true
    else match hay with
      | [] => false
      | _ :: t => hasSub t needle

/-- Character class tests used by the regexes of the source. -/
def isDigitC (c : Char) : Bool := '0' ≤ c && c ≤ '9'

/-- The model of the regex class `\s` (ASCII whitespace). -/
def isWsC (c : Char) : Bool := c = ' ' || c = '\t' || c = '\n' || c = '\r' || c = '\x0c' || c = '\x0b'

/-- The model of the regex word-character class used by `\b`
(`[A-Za-z0-9_]`). -/
def isWordC (c : Char) : Bool :=
  ('a' ≤ c && c ≤ 'z') || ('A' ≤ c && c ≤ 'Z') || isDigitC c || c = '_'

/-- Abstract syntax of the regular-expression fragment used by the
source code.  Quantifiers only ever range over single-character
classes in the embedded regexes, which is reflected in the syntax:
`starCls`/`lazyStarCls` are the greedy and lazy Kleene stars over a
character class. -/
inductive RE : Type
  | eps : RE
  | cls (p : Char → Bool) : RE
  | seq (a b : RE) : RE
  | alt (a b : RE) : RE
  | starCls (p : Char → Bool) : RE
  | lazyStarCls (p : Char → Bool) : RE
  | group (idx : ℕ) (a : RE) : RE
  | nla (a : RE) : RE
  | wordB : RE
  | startA : RE
  | endA : RE

/-- Capture list: `(group index, start, stop)` triples, most recent
first. -/
abbrev Caps := List (ℕ × ℕ × ℕ)

/-- Length of the maximal run of characters satisfying `p` starting at
position `i` of `t`. -/
def runLen (p : Char → Bool) (t : Str) (i : ℕ) : ℕ :=
  ((t.drop i).takeWhile p).length

/-- Greedy backtracking over a character-class run: try the
continuation at offset `j`, then `j - 1`, …, then `0`. -/
def starDesc (k : ℕ → Option (ℕ × Caps)) (i : ℕ) : ℕ → Option (ℕ × Caps)
  | 0 => k i
  | j + 1 =>
    match k (i + (j + 1)) with
    | some r => some r
    | none => starDesc k i j

/-- Lazy backtracking over a character-class run: try the continuation
at offset `j`, then `j + 1`, … up to `j + left`. -/
def lazyAsc (k : ℕ → Option (ℕ × Caps)) (i : ℕ) : ℕ → ℕ → Option (ℕ × Caps)
  | 0, j => k (i + j)
  | left + 1, j =>
    match k (i + j) with
    | some r => some r
    | none => lazyAsc k i left (j + 1)

/-- Is there a word character at position `i` of `t`?  (Out of range
counts as no, matching the JavaScript `\b` semantics.) -/
def wordAt (t : Str) (i : ℕ) : Bool :=
  match t[i]? with
  | some c => isWordC c
  | none => false

/-- The JavaScript `\b` word-boundary test at position `i`. -/
def atWordBoundary (t : Str) (i : ℕ) : Bool :=
  match i with
  | 0 => wordAt t 0
  | j + 1 => wordAt t j != wordAt t (j + 1)

/-- Backtracking matcher in continuation-passing style.  `matchA re t i
caps k` attempts to match `re` in `t` starting at position `i` with
capture list `caps`; on each candidate parse it calls the continuation
`k` with the end position and updated captures, and backtracks while
`k` returns `none`.  Greediness and alternation order follow the
JavaScript semantics (leftmost alternative first, greedy quantifiers
longest first, lazy quantifiers shortest first). -/
def matchA : RE → Str → ℕ → Caps → (ℕ → Caps → Option (ℕ × Caps)) → Option (ℕ × Caps)
  | .eps, _, i, caps, k => k i caps
  | .cls p, t, i, caps, k =>
    match t[i]? with
    | some c => if p c then k (i + 1) caps else none
    | none => none
  | .seq a b, t, i, caps, k =>
    matchA a t i caps fun j caps1 => matchA b t j caps1 k
  | .alt a b, t, i, caps, k =>
    match matchA a t i caps k with
    | some r => some r
    | none => matchA b t i caps k
  | .starCls p, t, i, caps, k =>
    starDesc (fun j => k j caps) i (runLen p t i)
  | .lazyStarCls p, t, i, caps, k =>
    lazyAsc (fun j => k j caps) i (runLen p t i) 0
  | .group idx a, t, i, caps, k =>
    matchA a t i caps fun j caps1 => k j ((idx, i, j) :: caps1)
  | .nla a, t, i, caps, k =>
    match matchA a t i caps (fun j caps1 => some (j, caps1)) with
    | some _ => none
    | none => k i caps
  | .wordB, t, i, caps, k =>
    if atWordBoundary t i then k i caps else none
  | .startA, _, i, caps, k =>
    if i = 0 then k i caps else none
  | .endA, t, i, caps, k =>
    if i = t.length then k i caps else none

/-- Try to match `re` exactly at position `i`; returns the end position
and captures of the first parse found. -/
def matchAt (re : RE) (t : Str) (i : ℕ) : Option (ℕ × Caps) :=
  matchA re t i [] fun j caps => some (j, caps)

/-- Leftmost-match search from position `i` with explicit fuel. -/
def findFromF (re : RE) (t : Str) : ℕ → ℕ → Option (ℕ × ℕ × Caps)
  | 0, _ => none
  | fuel + 1, i =>
    match matchAt re t i with
    | some (j, caps) => some (i, j, caps)
    | none => if i < t.length then findFromF re t fuel (i + 1) else none

/-- Leftmost match of `re` in `t` at or after position `i`, as
`(start, stop, captures)`: the model of a fresh `re.exec(t)` with
`lastIndex = i`, and of `String.prototype.match` for `i = 0`. -/
def findFrom (re : RE) (t : Str) (i : ℕ) : Option (ℕ × ℕ × Caps) :=
  findFromF re t (t.length + 1 - i) i

/-- The `while ((m = re.exec(t)) !== null)` loop of a `g`-flag regex:
collect successive leftmost matches, resuming each search at the end of
the previous match.  (The embedded patterns never produce empty
matches; a zero-width match stops the loop here, where JavaScript
would not terminate.) -/
def execLoop (re : RE) (t : Str) : ℕ → ℕ → List (ℕ × ℕ × Caps)
  | 0, _ => []
  | fuel + 1, pos =>
    match findFrom re t pos with
    | none => []
    | some (s, e, caps) =>
      if e ≤ s then [(s, e, caps)]
      else (s, e, caps) :: execLoop re t fuel e

/-- All matches of a `g`-flag regex over `t`, in search order. -/
def execList (re : RE) (t : Str) : List (ℕ × ℕ × Caps) :=
  execLoop re t (t.length + 1) 0

/-- The model of `re.test(t)` on a freshly created regex literal. -/
def testRE (re : RE) (t : Str) : Bool :=
  (findFrom re t 0).isSome

/-- Captured substring of group `idx` (most recent write wins, as in
JavaScript). -/
def capGet (t : Str) (caps : Caps) (idx : ℕ) : Option Str :=
  match caps.find? (fun trip => trip.1 = idx) with
  | some (_, s, e) => some ((t.drop s).take (e - s))
  | none => none

/-- Single literal character. -/
def chr (c : Char) : RE := .cls (fun d => d = c)

/-- Case-sensitive literal string. -/
def lit (s : Str) : RE := s.foldr (fun c r => .seq (chr c) r) .eps

/-- Case-insensitive literal string (the `i` flag). -/
def litCI (s : Str) : RE :=
  s.foldr (fun c r => .seq (.cls fun d => lowerChar d = lowerChar c) r) .eps

/-- Greedy `p+` over a character class. -/
def plusC (p : Char → Bool) : RE := .seq (.cls p) (.starCls p)

/-- Greedy `p?` over a character class. -/
def optC (p : Char → Bool) : RE := .alt (.cls p) .eps

/-- Greedy optional over an arbitrary sub-expression (`(...)?`). -/
def optR (a : RE) : RE := .alt a .eps

/-- `a|b|c|…` with JavaScript ordering. -/
def alts : List RE → RE
  | [] => .eps
  | [a] => a
  | a :: rest => .alt a (alts rest)

/-- Sequence of several sub-expressions. -/
def seqs : List RE → RE
  | [] => .eps
  | [a] => a
  | a :: rest => .seq a (seqs rest)

/-- Lazy `p+?` over a character class (one, then as few as possible). -/
def lazyPlusC (p : Char → Bool) : RE := .seq (.cls p) (.lazyStarCls p)

/-- The number sub-pattern `-?\d+\.?\d+` shared by the three
coordinate-extraction regexes of `parseCoordinates`. -/
def numberRE : RE :=
  seqs [optC (fun c => c = '-'), plusC isDigitC, optC (fun c => c = '.'), plusC isDigitC]

/-- The separator class `[,;|]`. -/
def isSepC (c : Char) : Bool := c = ',' || c = ';' || c = '|'

/-- `\s*`. -/
def wsStar : RE := .starCls isWsC

/-- Pattern 1 of `parseCoordinates`:
`/(-?\d+\.?\d+)\s*°\s*[NS]?\s*[,;|]\s*(-?\d+\.?\d+)\s*°\s*[EW]?/gi`. -/
def coordPat1 : RE :=
  seqs [.group 1 numberRE, wsStar, chr '°', wsStar,
        optC (fun c => lowerChar c = 'n' || lowerChar c = 's'), wsStar,
        .cls isSepC, wsStar, .group 2 numberRE, wsStar, chr '°',
        optC (fun c => lowerChar c = 'e' || lowerChar c = 'w')]

/-- Pattern 2 of `parseCoordinates`:
`/(-?\d+\.?\d+)\s*[,;|]\s*(-?\d+\.?\d+)(?![°EW])/g` (case-sensitive). -/
def coordPat2 : RE :=
  seqs [.group 1 numberRE, wsStar, .cls isSepC, wsStar, .group 2 numberRE,
        .nla (.cls fun c => c = '°' || c = 'E' || c = 'W')]

/-- Pattern 3 of `parseCoordinates`:
`/(-?\d+\.?\d+)\s*[NS]?\s*[,;|]\s*(-?\d+\.?\d+)\s*[EW]?/gi`. -/
def coordPat3 : RE :=
  seqs [.group 1 numberRE, wsStar,
        optC (fun c => lowerChar c = 'n' || lowerChar c = 's'), wsStar,
        .cls isSepC, wsStar, .group 2 numberRE, wsStar,
        optC (fun c => lowerChar c = 'e' || lowerChar c = 'w')]

/-- Numeric value of a digit string. -/
def digsVal (s : Str) : ℕ := s.foldl (fun a c => 10 * a + (c.toNat - 48)) 0

/-- The model of `parseFloat` on the tokens matched by the embedded
regexes (optional sign, integer digits, optional fraction), as an exact
rational. -/
def parseDec (s : Str) : ℚ :=
  match s with
  | '-' :: rest => -(parseDecPos rest)
  | _ => parseDecPos s
where
  /-- `parseFloat` on an unsigned decimal token. -/
  parseDecPos (s : Str) : ℚ :=
    let ip := s.takeWhile isDigitC
    let rest := s.drop ip.length
    let fp := match rest with
      | '.' :: r => r.takeWhile isDigitC
      | _ => []
    (digsVal ip : ℚ) + (digsVal fp : ℚ) / ((10 : ℚ) ^ fp.length)

/-- One regex pass of `parseCoordinates`: every match of the pattern
over the text, with its span and the `parseFloat` values of its two
capture groups. -/
def coordPassMatches (re : RE) (t : Str) : List ((ℕ × ℕ) × ℚ × ℚ) :=
  (execList re t).filterMap fun m =>
    match capGet t m.2.2 1, capGet t m.2.2 2 with
    | some a, some b => some ((m.1, m.2.1), parseDec a, parseDec b)
    | _, _ => none

/-- The range check and first-seen deduplication that `parseCoordinates`
applies to the matches of its three passes (the `seen` set and the
`matches` array of the source). -/
def collectValid : List ((ℕ × ℕ) × ℚ × ℚ) → List (ℚ × ℚ) → List (ℚ × ℚ)
  | [], _ => []
  | m :: rest, seen =>
    let la := m.2.1
    let lo := m.2.2
    if (-90 ≤ la ∧ la ≤ 90 ∧ -180 ≤ lo ∧ lo ≤ 180) ∧ (la, lo) ∉ seen then
      (la, lo) :: collectValid rest ((la, lo) :: seen)
    else
      collectValid rest seen

/-- `parseCoordinates` (src/utils/coordinateParser.js): `none` when the
text is empty or contains the token "none" (case-insensitively), or
when no pattern yields a valid pair; otherwise the deduplicated,
range-checked pairs of the three passes in pass-major order.  The
JavaScript function returns the pairs as a `" | "`-joined string of
`lat,lon` pairs; the model returns the corresponding list of exact
rational pairs. -/
def parseCoordinates (t : Str) : Option (List (ℚ × ℚ)) :=
  if t.isEmpty || hasSub (lowerStr t) ['n', 'o', 'n', 'e'] then none
  else
    let ms := coordPassMatches coordPat1 t ++ coordPassMatches coordPat2 t
                ++ coordPassMatches coordPat3 t
    let l := collectValid ms []
    if l.isEmpty then none else some l

/-- Decimal digits of a natural number. -/
def natDigits (n : ℕ) : Str := Nat.toDigits 10 n

/-- Decimal expansion of `rem / den` (`rem < den`), with fuel; the
rationals this is applied to always have a finite expansion. -/
def fracDigits : ℕ → ℕ → ℕ → Str
  | _, _, 0 => []
  | rem, den, fuel + 1 =>
    if rem = 0 then []
    else
      let x := rem * 10
      Char.ofNat (48 + x / den) :: fracDigits (x % den) den fuel

/-- The model of the JavaScript number-to-string conversion
(template-literal interpolation) for the finite-decimal rationals this
program manipulates: minimal decimal form, no trailing zeros. -/
def renderQ (q : ℚ) : Str :=
  if q < 0 then '-' :: renderQPos (-q) else renderQPos q
where
  /-- Render a nonnegative finite-decimal rational. -/
  renderQPos (q : ℚ) : Str :=
    let n := q.num.toNat
    let d := q.den
    let ip := natDigits (n / d)
    let rem := n % d
    if rem = 0 then ip else ip ++ '.' :: fracDigits rem d 64

/-- `lat,lon` rendering of one coordinate pair (the `${lat},${lon}` key
strings of the source). -/
def renderPair (p : ℚ × ℚ) : Str := renderQ p.1 ++ ',' :: renderQ p.2

/-- `" | "`-joined rendering of a coordinate list: the string form in
which `parseCoordinates` returns its result. -/
def renderCoords : List (ℚ × ℚ) → Str
  | [] => []
  | [p] => renderPair p
  | p :: rest => renderPair p ++ ' ' :: '|' :: ' ' :: renderCoords rest

/-- `generateCircle` (src/utils/bufferGenerator.js): ring of
`numPoints + 1` vertices around `center = (lat, lon)`, sampling angles
`(i / numPoints) * 2π` for `i = 0 … numPoints`, pushed in Mapbox
`[lon, lat]` order.  The sine, cosine and π of `Math` are passed as
parameters (`s`, `c`, `piV`); the geometry theorems instantiate them
with `Real.sin`, `Real.cos`, `Real.pi`. -/
def generateCircle {α : Type} [Field α] (s c : α → α) (piV : α)
    (center : α × α) (radiusKm : α) (numPoints : ℕ) : List (α × α) :=
  let lat := center.1
  let lon := center.2
  let latOffset := radiusKm / 111
  let lonOffset := radiusKm / (111 * c (lat * piV / 180))
  (List.range (numPoints + 1)).map fun (i : ℕ) =>
    let angle := ((i : α) / (numPoints : α)) * 2 * piV
    (lon + lonOffset * c angle, lat + latOffset * s angle)

/-- The coordinate filter of `extractBuffer` (src/agents/bufferAgent.js,
the `isInvalid` test): a parsed center is discarded when it is exactly
(0,0), exactly (1,0), within 0.1° of the origin on both axes, or has
latitude beyond ±85. -/
def isInvalidCenter (lat lon : ℚ) : Bool :=
  (lat = 0 && lon = 0) || (lat = 1 && lon = 0) ||
    (|lat| < 1 / 10 && |lon| < 1 / 10) || |lat| > 85

/-- The center-collection loop of `extractBuffer`: keep every parsed
pair that passes the `isInvalid` filter, in order. -/
def validCenters (pairs : List (ℚ × ℚ)) : List (ℚ × ℚ) :=
  pairs.filter fun p => !isInvalidCenter p.1 p.2

/-- The greedy clustering loop of `extractBuffer` (the `clusters` /
`used` loop): take the first unclustered point as a cluster seed,
absorb every later point within the 0.5°×0.5° tolerance box of the
seed, keep the seed as the cluster representative, and repeat on the
remaining points. -/
def clusterNearbyCenters : List (ℚ × ℚ) → List (ℚ × ℚ)
  | [] => []
  | h :: t =>
    h :: clusterNearbyCenters
      (t.filter fun p => !(|p.1 - h.1| < 1 / 2 && |p.2 - h.2| < 1 / 2))
termination_by l => l.length
decreasing_by
  simp only [List.length_cons]
  exact Nat.lt_succ_of_le (List.length_filter_le _ _)

/-- The ring handed to the map by `displayBufferOnMap`
(src/utils/mapDisplay.js): `none` models the early return on an empty
polygon; otherwise the polygon with its first vertex appended once more
(`[...bufferData.polygon, bufferData.polygon[0]]`). -/
def bufferRenderRing {α : Type} (poly : List α) : Option (List α) :=
  match poly with
  | [] => none
  | p :: _ => some (poly ++ [p])

/-- The rings handed to the map by `displayMultipleBuffersOnMap`: the
same closing append applied to each buffer polygon, skipping empty
ones. -/
def multiBufferRings {α : Type} (polys : List (List α)) : List (List α) :=
  polys.filterMap bufferRenderRing

/-- `detectTransportMode` (src/services/directions.js). -/
def detectTransportMode (userMessage : Str) : String :=
  let q := lowerStr userMessage
  if hasSub q "cycling".toList || hasSub q "bike".toList || hasSub q "bicycle".toList
      || hasSub q "cycle".toList then "mapbox/cycling"
  else if hasSub q "walking".toList || hasSub q "walk".toList || hasSub q "pedestrian".toList
      || hasSub q "hiking".toList then "mapbox/walking"
  else if hasSub q "driving".toList || hasSub q "drive".toList || hasSub q "car".toList
      || hasSub q "vehicle".toList || hasSub q "traffic".toList then "mapbox/driving-traffic"
  else "mapbox/driving-traffic"

/-- `needsRouting` (src/services/directions.js). -/
def needsRouting (userMessage : Str) : Bool :=
  let q := lowerStr userMessage
  ["route", "directions", "driving", "walking", "cycling", "bike", "car", "walk",
    "how to get", "how do i get", "distance between", "from to"].any
    fun kw => hasSub q kw.toList

/-- `convertCoordinatesForDirections` (src/services/directions.js): the
`" | "`-joined `lat,lon` string is split back into pairs and flipped to
`[lng, lat]` order.  On the canonical strings produced by
`parseCoordinates` the split-and-`Number` round trip is exact, so the
model acts on the pair list. -/
def convertCoordinatesForDirections (l : List (ℚ × ℚ)) : List (ℚ × ℚ) :=
  l.map fun p => (p.2, p.1)

/-- `detectTravelMode` (src/services/isochrone.js). -/
def detectTravelMode (userMessage : Str) : String :=
  let q := lowerStr userMessage
  if hasSub q "cycling".toList || hasSub q "bike".toList || hasSub q "bicycle".toList
      || hasSub q "cycle".toList then "mapbox/cycling"
  else if hasSub q "walking".toList || hasSub q "walk".toList || hasSub q "pedestrian".toList
      || hasSub q "hiking".toList then "mapbox/walking"
  else if hasSub q "traffic".toList then "mapbox/driving-traffic"
  else if hasSub q "driving".toList || hasSub q "drive".toList || hasSub q "car".toList
      || hasSub q "vehicle".toList then "mapbox/driving-traffic"
  else "mapbox/driving-traffic"

/-- JavaScript `Math.round`: round half toward positive infinity. -/
def jsRound (q : ℚ) : ℤ := ⌊q + 1 / 2⌋

/-- `convertToMeters` (src/services/isochrone.js). -/
def convertToMeters (value : ℚ) (unit : Str) : ℤ :=
  let u := lowerStr unit
  if u = "km".toList || u = "kilometer".toList || u = "kilometers".toList then
    jsRound (value * 1000)
  else if u = "mile".toList || u = "miles".toList then
    jsRound (value * (160934 / 100))
  else if u = "m".toList || u = "meter".toList || u = "meters".toList then
    jsRound value
  else jsRound value

/-- `/\b(\d+)\s*(min|minute|minutes)\b/gi`. -/
def timePat1 : RE :=
  seqs [.wordB, .group 1 (plusC isDigitC), wsStar,
        .group 2 (alts [litCI "min".toList, litCI "minute".toList, litCI "minutes".toList]),
        .wordB]

/-- `/\b(\d+)\s*hour\b/gi`. -/
def timePat2 : RE :=
  seqs [.wordB, .group 1 (plusC isDigitC), wsStar, litCI "hour".toList, .wordB]

/-- `/\b(\d+)\s*hours\b/gi`. -/
def timePat3 : RE :=
  seqs [.wordB, .group 1 (plusC isDigitC), wsStar, litCI "hours".toList, .wordB]

/-- First-occurrence deduplication: the model of insertion into a
JavaScript `Set`. -/
def firstDedup : List ℤ → List ℤ → List ℤ
  | [], _ => []
  | x :: rest, seen =>
    if x ∈ seen then firstDedup rest seen
    else x :: firstDedup rest (x :: seen)

/-- `extractTimeValues` (src/services/isochrone.js): run the three time
patterns in order; the first captures its value in minutes, the two
`hour` patterns convert to minutes; keep values in (0, 60], then
deduplicate, sort ascending and cap at 4 contours. -/
def extractTimeValues (query : Str) : List ℤ :=
  let vals1 := (execList timePat1 query).filterMap fun m =>
    (capGet query m.2.2 1).map fun d => (digsVal d : ℤ)
  let vals2 := (execList timePat2 query).filterMap fun m =>
    (capGet query m.2.2 1).map fun d => (digsVal d : ℤ) * 60
  let vals3 := (execList timePat3 query).filterMap fun m =>
    (capGet query m.2.2 1).map fun d => (digsVal d : ℤ) * 60
  let times := (vals1 ++ vals2 ++ vals3).filter fun v => 0 < v ∧ v ≤ 60
  ((firstDedup times []).insertionSort (· ≤ ·)).take 4

/-- `/\b(\d+\.?\d*)\s*(km|mile|miles|meter|meters|m)\b/gi`. -/
def distPat : RE :=
  seqs [.wordB,
        .group 1 (seqs [plusC isDigitC, optC (fun c => c = '.'), .starCls isDigitC]),
        wsStar,
        .group 2 (alts [litCI "km".toList, litCI "mile".toList, litCI "miles".toList,
                        litCI "meter".toList, litCI "meters".toList, litCI "m".toList]),
        .wordB]

/-- `extractDistanceValues` (src/services/isochrone.js): every
`number unit` match converted to meters, kept when in (0, 100000],
deduplicated, sorted ascending, capped at 4. -/
def extractDistanceValues (query : Str) : List ℤ :=
  let dists := (execList distPat query).filterMap fun m =>
    match capGet query m.2.2 1, capGet query m.2.2 2 with
    | some v, some u => some (convertToMeters (parseDec v) u)
    | _, _ => none
  let valid := dists.filter fun d => 0 < d ∧ d ≤ 100000
  ((firstDedup valid []).insertionSort (· ≤ ·)).take 4

/-- Case-insensitive literal from a Lean string literal. -/
def wCI (s : String) : RE := litCI s.toList

/-- The regex `s?` with the `i` flag (optional plural). -/
def sOpt : RE := optC fun c => lowerChar c = 's'

/-- `\s+`. -/
def sp1 : RE := plusC isWsC

/-- Greedy `.*` (any character except line terminators). -/
def anyStar : RE := .starCls fun c => !(c = '\n' || c = '\r')

/-- Lazy `.*?`. -/
def anyLazy : RE := .lazyStarCls fun c => !(c = '\n' || c = '\r')

/-- `\d+`. -/
def digits1 : RE := plusC isDigitC

/-- `\w+`. -/
def wordPlus : RE := plusC isWordC

/-- Number of occurrences of a character in a string
(`(s.match(/,/g) || []).length`). -/
def countChar (s : Str) (c : Char) : ℕ := (s.filter (fun d => d = c)).length

/-- `/\band\s+(\d+|ten|X)\s+other/gi` (the "and X other" test shared by
the classifier and the line agent). -/
def andOtherRE : RE :=
  seqs [.wordB, wCI "and", sp1, alts [digits1, wCI "ten", wCI "x"], sp1, wCI "other"]

/-- Query intent: the six agent categories of the classifier. -/
inductive QIntent : Type
  | point | line | buffer | polygon | isochrone | elevation
deriving DecidableEq, Repr

/-- Query subtype: cardinality / shape discriminator. -/
inductive QSubtype : Type
  | single | multiple | routeSingle | routeMulti | directSingle | directMulti
deriving DecidableEq, Repr

/-- The classification record returned by `detectQueryType`. -/
structure QueryType : Type where
  type : QIntent
  subtype : QSubtype
deriving DecidableEq, Repr

/-- The `explicitPolygonPatterns` list of `detectQueryType`. -/
def explicitPolygonPatterns : List RE :=
  [seqs [.wordB, alts [wCI "create", wCI "make", wCI "build", wCI "draw"], sp1,
         optR (seqs [wCI "a", sp1]), wCI "polygon", sp1,
         alts [wCI "from", wCI "using", wCI "with", wCI "connecting", wCI "joining"]],
   seqs [.wordB, wCI "polygon", sp1,
         alts [wCI "from", wCI "using", wCI "with", wCI "connecting", wCI "joining"],
         sp1, anyLazy,
         alts [seqs [wCI "location", sOpt], seqs [wCI "point", sOpt],
               seqs [wCI "coordinate", sOpt], seqs [wCI "citie", sOpt]]],
   seqs [.wordB,
         alts [wCI "polygon", wCI "triangle", wCI "shape", wCI "boundary",
               wCI "outline", wCI "area", wCI "region"],
         sp1, alts [wCI "connecting", wCI "joining", wCI "linking"], sp1],
   seqs [.wordB, alts [wCI "polygon", wCI "triangle"], sp1,
         alts [wCI "from", wCI "connecting", wCI "joining"], sp1, anyLazy,
         alts [seqs [wCI "location", sOpt], seqs [wCI "point", sOpt],
               seqs [wCI "citie", sOpt]]],
   seqs [.wordB, wCI "create", sp1, optR (seqs [wCI "a", sp1]),
         alts [wCI "polygon", wCI "triangle", wCI "shape", wCI "boundary"], sp1,
         alts [wCI "from", wCI "using", wCI "with"]]]

/-- `/\b(polygon|triangle|shape|boundary|outline|area|region)\s+(from|using|connecting|joining)/i`
applied to the AI text. -/
def aiPolygonRE : RE :=
  seqs [.wordB,
        alts [wCI "polygon", wCI "triangle", wCI "shape", wCI "boundary",
              wCI "outline", wCI "area", wCI "region"],
        sp1, alts [wCI "from", wCI "using", wCI "connecting", wCI "joining"]]

/-- `/\b(polygon|triangle|shape|boundary)\b/i`. -/
def polyWordRE : RE :=
  seqs [.wordB, alts [wCI "polygon", wCI "triangle", wCI "shape", wCI "boundary"], .wordB]

/-- `/coordinates?|points?|locations?/i`. -/
def coordWordRE : RE :=
  alts [seqs [wCI "coordinate", sOpt], seqs [wCI "point", sOpt],
        seqs [wCI "location", sOpt]]

/-- The `polygonIndicators` list of `detectQueryType`. -/
def polygonIndicators : List RE :=
  [seqs [.wordB, wCI "draw", sp1, wCI "polygon", .wordB],
   seqs [.wordB, wCI "create", sp1, wCI "polygon", .wordB],
   seqs [.wordB, wCI "polygon", sp1,
         alts [wCI "around", wCI "for", wCI "of", wCI "covering"], .wordB],
   seqs [.wordB,
         alts [wCI "boundary", wCI "boundaries", wCI "outline",
               seqs [wCI "city", sp1, wCI "limits"],
               seqs [wCI "district", sp1, wCI "boundary"]],
         sp1, alts [wCI "of", wCI "for"], .wordB],
   seqs [.wordB, wCI "show", sp1,
         alts [wCI "region", wCI "area", wCI "district", wCI "boundary",
               seqs [wCI "city", sp1, wCI "limits"]], .wordB],
   seqs [.wordB, alts [wCI "polygon", wCI "region", wCI "boundary"], sp1,
         alts [wCI "from", wCI "using", wCI "with", wCI "connecting", wCI "joining"],
         sp1, anyLazy,
         alts [seqs [wCI "location", sOpt], seqs [wCI "point", sOpt],
               seqs [wCI "coordinate", sOpt], seqs [wCI "citie", sOpt]]],
   seqs [.wordB, alts [wCI "polygon", wCI "region", wCI "boundary"], sp1,
         wCI "covering", sp1, alts [wCI "area", wCI "region"], sp1, wCI "between", .wordB],
   seqs [.wordB, wCI "draw", sp1,
         alts [wCI "region", wCI "area", wCI "boundary", wCI "outline"], .wordB],
   seqs [.wordB, wCI "create", sp1,
         alts [wCI "region", wCI "area", wCI "boundary", wCI "outline"], .wordB],
   seqs [.wordB, alts [wCI "area", wCI "region"], sp1,
         alts [wCI "between", wCI "from", wCI "around"], .wordB],
   seqs [.wordB, alts [wCI "polygon", wCI "triangle", wCI "shape"], sp1,
         alts [wCI "with", wCI "from"], sp1, anyLazy,
         alts [seqs [wCI "location", sOpt], seqs [wCI "point", sOpt],
               seqs [wCI "citie", sOpt]]],
   seqs [.wordB, alts [wCI "make", wCI "build", wCI "draw"], sp1,
         optR (seqs [wCI "a", sp1]),
         alts [wCI "polygon", wCI "triangle", wCI "shape"], sp1,
         alts [wCI "from", wCI "using", wCI "with"]]]

/-- The `elevationIndicators` list of `detectQueryType`. -/
def elevationIndicators : List RE :=
  [seqs [.wordB, wCI "elevation", sp1, wCI "profile", .wordB],
   seqs [.wordB, wCI "elevation", sp1, wCI "chart", .wordB],
   seqs [.wordB, wCI "elevation", sp1, wCI "graph", .wordB],
   seqs [.wordB, wCI "show", sp1, wCI "elevation", .wordB],
   seqs [.wordB, wCI "display", sp1, wCI "elevation", .wordB],
   seqs [.wordB, wCI "elevation", sp1, wCI "along", sp1,
         alts [wCI "route", wCI "line", wCI "path"]],
   seqs [.wordB, wCI "height", sp1, wCI "profile", .wordB],
   seqs [.wordB, wCI "altitude", sp1, wCI "profile", .wordB],
   seqs [.wordB, wCI "terrain", sp1, wCI "profile", .wordB]]

/-- The time-unit alternation `(min|minute|minutes|hour|hours)`. -/
def timeUnitAlt : RE :=
  alts [wCI "min", wCI "minute", wCI "minutes", wCI "hour", wCI "hours"]

/-- The distance-unit alternation `(km|mile|miles|meter|meters|m)`. -/
def distUnitAlt : RE :=
  alts [wCI "km", wCI "mile", wCI "miles", wCI "meter", wCI "meters", wCI "m"]

/-- The `isochroneIndicators` list of `detectQueryType`. -/
def isochroneIndicators : List RE :=
  [seqs [.wordB, wCI "isochrone", .wordB],
   seqs [.wordB, wCI "reachable", sp1, alts [wCI "area", wCI "zone", wCI "region"]],
   seqs [.wordB, wCI "travel", sp1, wCI "time", sp1,
         alts [wCI "area", wCI "zone", wCI "region"]],
   seqs [.wordB, digits1, wsStar, timeUnitAlt, sp1,
         alts [wCI "drive", wCI "driving", wCI "walk", wCI "walking", wCI "bike",
               wCI "cycling", wCI "cycle", wCI "radius", wCI "zone", wCI "area"]],
   seqs [.wordB, digits1, wsStar, distUnitAlt, sp1,
         alts [wCI "drive", wCI "driving", wCI "walk", wCI "walking", wCI "bike",
               wCI "cycling", wCI "cycle", wCI "radius", wCI "zone", wCI "area",
               seqs [wCI "travel", sp1, wCI "time"]]],
   seqs [.wordB, alts [wCI "area", wCI "zone", wCI "region"], sp1, wCI "reachable",
         sp1, alts [wCI "in", wCI "within"], sp1, digits1],
   seqs [.wordB, digits1, wsStar, timeUnitAlt, sp1,
         alts [wCI "zone", wCI "area", wCI "region", wCI "radius"]],
   seqs [.wordB, alts [wCI "driving", wCI "walking", wCI "cycling", wCI "bike"],
         sp1, wCI "zone"],
   seqs [.wordB, wCI "service", sp1, wCI "area"],
   seqs [.wordB, wCI "delivery", sp1, wCI "zone"],
   seqs [.wordB, wCI "show", sp1, digits1, wsStar, timeUnitAlt, sp1,
         alts [wCI "drive", wCI "walk", wCI "bike"]]]

/-- `/\b(\d+)\s*(min|minute|minutes|hour|hours)\b/gi` (contour count). -/
def timeCountRE : RE :=
  seqs [.wordB, .group 1 digits1, wsStar, .group 2 timeUnitAlt, .wordB]

/-- `/\b(\d+)\s*(km|mile|miles|meter|meters|m)\b/gi` (contour count). -/
def distCountRE : RE :=
  seqs [.wordB, .group 1 digits1, wsStar, .group 2 distUnitAlt, .wordB]

/-- `/\b(and|,)\s+\d+\s*(min|km|mile)/i`. -/
def multiContourRE : RE :=
  seqs [.wordB, alts [wCI "and", lit [',']], sp1, digits1, wsStar,
        alts [wCI "min", wCI "km", wCI "mile"]]

/-- The `bufferIndicators` list of `detectQueryType`. -/
def bufferIndicators : List RE :=
  [seqs [.wordB, wCI "buffer", .wordB],
   seqs [.wordB, wCI "geofence", .wordB],
   seqs [.wordB, wCI "geofencing", .wordB],
   seqs [.wordB, wCI "perimeter", .wordB],
   seqs [.wordB, wCI "radius", .wordB],
   seqs [.wordB, wCI "area", sp1, wCI "within"],
   seqs [.wordB, wCI "within", sp1, digits1, wsStar,
         alts [wCI "km", wCI "mile", wCI "m"], sp1,
         alts [wCI "of", wCI "around", wCI "from"]],
   seqs [.wordB, digits1, wsStar, alts [wCI "km", wCI "mile", wCI "m"], sp1,
         alts [wCI "buffer", wCI "radius", wCI "area", wCI "geofence", wCI "perimeter"]],
   seqs [.wordB, wCI "add", sp1, digits1, wsStar,
         alts [wCI "km", wCI "mile", wCI "m"], sp1, wCI "buffer"],
   seqs [.wordB, wCI "create", sp1, optR (seqs [wCI "a", sp1]), digits1, wsStar,
         alts [wCI "km", wCI "mile", wCI "m"], sp1,
         alts [wCI "geofence", wCI "buffer", wCI "radius"]],
   seqs [.wordB, wCI "show", sp1, optR (seqs [wCI "a", sp1]), digits1, wsStar,
         alts [wCI "km", wCI "mile", wCI "m"], sp1,
         alts [wCI "perimeter", wCI "radius", wCI "area"]]]

/-- `/\band\b/i`. -/
def bareAndRE : RE := seqs [.wordB, wCI "and", .wordB]

/-- `/\band\s+(the|a|an|this|that)/i`. -/
def andDeterminerRE : RE :=
  seqs [.wordB, wCI "and", sp1,
        alts [wCI "the", wCI "a", wCI "an", wCI "this", wCI "that"]]

/-- The `strongLineIndicators` list of `detectQueryType`. -/
def strongLineIndicators : List RE :=
  [seqs [.wordB, wCI "route", sp1, wCI "from", sp1, wordPlus, anyStar, sp1,
         wCI "to", sp1, wordPlus],
   seqs [.wordB, wCI "route", sp1, wCI "to", sp1, wordPlus, anyStar, sp1,
         wCI "from", sp1, wordPlus],
   seqs [.wordB, wCI "direction", sOpt, sp1, alts [wCI "from", wCI "to", wCI "between"]],
   seqs [.wordB, alts [wCI "from", wCI "between"], sp1, wordPlus, anyStar, sp1,
         alts [wCI "to", wCI "and"], sp1, wordPlus],
   seqs [.wordB, wCI "connect", sp1, wordPlus, anyStar, sp1, wCI "with", sp1,
         optR (seqs [wCI "a", sp1]), wCI "line"],
   seqs [.wordB, wCI "path", sp1, alts [wCI "through", wCI "via", wCI "from"]],
   seqs [.wordB, wCI "chain", sp1, wCI "of"],
   seqs [.wordB, wCI "sequence", sp1, wCI "of"],
   seqs [.wordB, wCI "waypoint", sOpt, wsStar, lit [':']],
   seqs [.wordB, wCI "through", sp1, wordPlus, anyStar, lit [','], wsStar, wordPlus],
   seqs [.wordB, wCI "via", sp1, wordPlus, anyStar, lit [','], wsStar, wordPlus]]

/-- `/\broute\b/i`. -/
def routeWordRE : RE := seqs [.wordB, wCI "route", .wordB]

/-- `/\b(directions?|driving|walking|cycling|how\s+to\s+get)\b/i`. -/
def lineIsRouteRE : RE :=
  seqs [.wordB,
        alts [seqs [wCI "direction", sOpt], wCI "driving", wCI "walking", wCI "cycling",
              seqs [wCI "how", sp1, wCI "to", sp1, wCI "get"]],
        .wordB]

/-- `/\b(through|via|connecting|chain|sequence)\b/i`. -/
def chainWordRE : RE :=
  seqs [.wordB,
        alts [wCI "through", wCI "via", wCI "connecting", wCI "chain", wCI "sequence"],
        .wordB]

/-- The `locationOnlyPatterns` list (tested against the raw user
message). -/
def locationOnlyPatterns : List RE :=
  [seqs [.startA, wCI "where is"],
   seqs [.startA, wCI "show me", sp1,
         .nla (alts [wCI "route", wCI "directions", wCI "path", wCI "way"])],
   seqs [.startA, wCI "find", sp1,
         .nla (alts [wCI "route", wCI "directions", wCI "path"])],
   seqs [.startA, wCI "locate"],
   wCI "what is the location of",
   seqs [wCI "coordinate", sOpt, wCI " of"],
   wCI "location of",
   wCI "position of"]

/-- The `moderateLineIndicators` list. -/
def moderateLineIndicators : List RE :=
  [seqs [.wordB, wCI "distance", sp1, alts [wCI "between", wCI "from"]],
   seqs [.wordB, wCI "connect", sp1, wordPlus],
   seqs [.wordB, wCI "through", sp1, wordPlus],
   seqs [.wordB, wCI "via", sp1, wordPlus]]

/-- The `pointIndicators` list. -/
def pointIndicators : List RE :=
  [seqs [.wordB, wCI "where", sp1, wCI "is", .wordB],
   seqs [.wordB, wCI "show", sp1, wCI "me", .wordB],
   seqs [.wordB, wCI "find", .wordB],
   seqs [.wordB, wCI "locate", .wordB],
   seqs [.wordB, wCI "coordinate", sOpt, sp1, wCI "of", .wordB],
   seqs [.wordB, wCI "location", sp1, wCI "of", .wordB],
   seqs [.wordB, wCI "position", sp1, wCI "of", .wordB],
   seqs [.wordB, wCI "what", sp1, wCI "is", sp1, wCI "the", sp1, wCI "location"],
   seqs [.wordB, wCI "top", sp1, digits1, sp1, wCI "places"],
   seqs [.wordB, wCI "multiple", sp1, wCI "locations"],
   seqs [.wordB, wCI "list", sp1, wCI "of", sp1, wCI "locations"]]

/-- `/\b(polygon|triangle|shape|boundary|area|region)\b/i`. -/
def polyHintModerateRE : RE :=
  seqs [.wordB,
        alts [wCI "polygon", wCI "triangle", wCI "shape", wCI "boundary",
              wCI "area", wCI "region"],
        .wordB]

/-- `/\b(distance\s+between|route|directions?)\b/i`. -/
def moderateIsRouteRE : RE :=
  seqs [.wordB,
        alts [seqs [wCI "distance", sp1, wCI "between"], wCI "route",
              seqs [wCI "direction", sOpt]],
        .wordB]

/-- `/\b(polygon|triangle|shape|boundary|area|region|connecting|joining)\b/i`. -/
def polyHint3RE : RE :=
  seqs [.wordB,
        alts [wCI "polygon", wCI "triangle", wCI "shape", wCI "boundary",
              wCI "area", wCI "region", wCI "connecting", wCI "joining"],
        .wordB]

/-- `/\b(route|connect|path|chain|sequence|directions?|from.*to)\b/i`. -/
def lineHint3RE : RE :=
  seqs [.wordB,
        alts [wCI "route", wCI "connect", wCI "path", wCI "chain", wCI "sequence",
              seqs [wCI "direction", sOpt], seqs [wCI "from", anyStar, wCI "to"]],
        .wordB]

/-- `/\b(route|directions?|driving|walking|cycling)\b/i`. -/
def defaultIsRouteRE : RE :=
  seqs [.wordB,
        alts [wCI "route", seqs [wCI "direction", sOpt], wCI "driving",
              wCI "walking", wCI "cycling"],
        .wordB]

/-- `/\b(polygon|triangle|shape|boundary|connecting|joining)\b/i`. -/
def polyHint2RE : RE :=
  seqs [.wordB,
        alts [wCI "polygon", wCI "triangle", wCI "shape", wCI "boundary",
              wCI "connecting", wCI "joining"],
        .wordB]

/-- `/\b(route|connect|path|between|from.*to|directions?)\b/i`. -/
def lineHint2RE : RE :=
  seqs [.wordB,
        alts [wCI "route", wCI "connect", wCI "path", wCI "between",
              seqs [wCI "from", anyStar, wCI "to"], seqs [wCI "direction", sOpt]],
        .wordB]

/-- `detectQueryType` (src/utils/queryDetector.js): the rule-based
query classifier, a pure function of the user text and the AI text.
The decision cascade, the keyword regexes and the comma-counting
location heuristic mirror the source line by line.  (The source also
computes a `combinedText` value that it never reads; it is omitted
here.) -/
def detectQueryType (userMessage aiMessage : Str) : QueryType :=
  let query := lowerStr userMessage
  let aiLower := lowerStr aiMessage
  let commaCount := countChar query ','
  let locationCount := commaCount + 1
  let hasAndOther := testRE andOtherRE query
  let hasExplicitPolygon := explicitPolygonPatterns.any fun p => testRE p query
  let aiHasPolygon := testRE aiPolygonRE aiLower
  let aiHasCoordinatesForPolygon := testRE polyWordRE aiLower && testRE coordWordRE aiLower
  if hasExplicitPolygon || (aiHasPolygon && locationCount ≥ 3)
      || (aiHasCoordinatesForPolygon && locationCount ≥ 3) then
    let hasMultiple := commaCount ≥ 2 || hasAndOther || testRE bareAndRE query
    ⟨.polygon, if hasMultiple then .multiple else .single⟩
  else if polygonIndicators.any (fun p => testRE p query) then
    let hasMultiple := commaCount ≥ 1 || hasAndOther || testRE bareAndRE query
    ⟨.polygon, if hasMultiple then .multiple else .single⟩
  else if elevationIndicators.any (fun p => testRE p query) then
    ⟨.elevation, .single⟩
  else if isochroneIndicators.any (fun p => testRE p query) then
    let timeCount := (execList timeCountRE query).length
    let distCount := (execList distCountRE query).length
    let hasMultipleContours := timeCount > 1 || distCount > 1 || testRE multiContourRE query
    ⟨.isochrone, if hasMultipleContours then .multiple else .single⟩
  else if bufferIndicators.any (fun p => testRE p query) then
    let hasAnd := testRE bareAndRE query && !testRE andDeterminerRE query
    let hasMultipleLocations := locationCount ≥ 2 || hasAndOther || hasAnd
    ⟨.buffer, if hasMultipleLocations then .multiple else .single⟩
  else
    let hasRouteWord := testRE routeWordRE query
    let hasStrongLine := strongLineIndicators.any fun p => testRE p query
    if hasRouteWord || hasStrongLine then
      let isRoute := hasRouteWord || testRE lineIsRouteRE query
      let isMultiple := locationCount ≥ 3 || hasAndOther || testRE chainWordRE query
      ⟨.line, if isRoute then (if isMultiple then .routeMulti else .routeSingle)
              else (if isMultiple then .directMulti else .directSingle)⟩
    else
      let isLocationQuery := locationOnlyPatterns.any fun p => testRE p userMessage
      if isLocationQuery then
        let isMultiple := (pointIndicators.any fun p => testRE p query) &&
          (locationCount ≥ 2 || hasAndOther || hasSub query "top".toList
            || hasSub query "list".toList)
        ⟨.point, if isMultiple then .multiple else .single⟩
      else
        let hasModerateLine := moderateLineIndicators.any fun p => testRE p query
        if hasModerateLine && locationCount ≥ 2 then
          let hasPolygonHint := testRE polyHintModerateRE query || testRE polyWordRE aiLower
          if hasPolygonHint && locationCount ≥ 3 then
            ⟨.polygon, .single⟩
          else
            let isRoute := testRE moderateIsRouteRE query
            ⟨.line, if isRoute then (if locationCount > 2 then .routeMulti else .routeSingle)
                    else (if locationCount > 2 then .directMulti else .directSingle)⟩
        else if pointIndicators.any (fun p => testRE p query) then
          let isMultiple := locationCount ≥ 2 || hasAndOther
            || hasSub query "top".toList || hasSub query "list".toList
          ⟨.point, if isMultiple then .multiple else .single⟩
        else if locationCount ≥ 3 then
          let hasPolygonHint := testRE polyHint3RE query || testRE polyWordRE aiLower
          let hasLineHint := testRE lineHint3RE query
          if hasPolygonHint && !hasLineHint then
            ⟨.polygon, .single⟩
          else if hasLineHint then
            let isRoute := testRE defaultIsRouteRE query
            ⟨.line, if isRoute then .routeMulti else .directMulti⟩
          else
            ⟨.line, .directMulti⟩
        else if locationCount ≥ 2 then
          let hasPolygonHint := testRE polyHint2RE query || testRE polyWordRE aiLower
          let hasLineHint := testRE lineHint2RE query
          if hasPolygonHint && !hasLineHint then
            ⟨.polygon, .single⟩
          else
            let isRoute := testRE defaultIsRouteRE query
            ⟨.line, if isRoute then .routeSingle else .directSingle⟩
        else
          ⟨.point, .single⟩

/-- Tag of one text-completion (Perplexity) call, by step. -/
inductive CallTag : Type
  | plan | extract | reflect | refine | center | radius | location
deriving DecidableEq, Repr

/-- Behaviour of the text-completion collaborator: the outcome of the
k-th call of an agent invocation, either a response string or a thrown
exception. -/
abbrev LLMOracle := ℕ → Except String Str

/-- Agent computation: threads the trace of issued collaborator calls
and models `throw` / promise rejection by `Except`.  The trace is kept
even when an exception escapes (those calls did happen). -/
def AgentM (α : Type) : Type := List CallTag → Except String α × List CallTag

instance : Monad AgentM where
  pure a := fun tr => (.ok a, tr)
  bind x f := fun tr =>
    match x tr with
    | (.ok a, tr1) => f a tr1
    | (.error e, tr1) => (.error e, tr1)

/-- Issue one call to the text-completion collaborator: consumes the
next oracle outcome and records the call tag. -/
def callLLM (o : LLMOracle) (tag : CallTag) : AgentM Str := fun tr =>
  match o tr.length with
  | .ok r => (.ok r, tr ++ [tag])
  | .error e => (.error e, tr ++ [tag])

/-- `throw new Error e`. -/
def throwErr {α : Type} (e : String) : AgentM α := fun tr => (.error e, tr)

/-- Run an agent computation on an empty trace. -/
def runAgent {α : Type} (x : AgentM α) : Except String α × List CallTag := x []

/-- Number of REFINE calls in a trace. -/
def countRefine (tr : List CallTag) : ℕ := tr.count CallTag.refine

/-- The structured `{success, error|message}` result that some agents
return; the agents that return JavaScript `undefined` are modelled as
returning `none` at the boundary. -/
structure AgentResult : Type where
  success : Bool
  error : Option String := none
  message : Option String := none
deriving DecidableEq, Repr

/-- The loose pair-counting regex of the REFLECT steps:
`/(-?\d+\.?\d*),\s*(-?\d+\.?\d*)/g`. -/
def looseCoordRE : RE :=
  let looseNum := seqs [optC (fun c => c = '-'), plusC isDigitC,
                        optC (fun c => c = '.'), .starCls isDigitC]
  seqs [.group 1 looseNum, lit [','], wsStar, .group 2 looseNum]

/-- JavaScript `String.prototype.trim`. -/
def trimStr (s : Str) : Str :=
  ((s.dropWhile isWsC).reverse.dropWhile isWsC).reverse

/-- What the line agent hands to the map at VALIDATE. -/
inductive LineDisplay : Type
  | nothing
  | points (l : List (ℚ × ℚ))
  | route (routeData : String) (coords : List (ℚ × ℚ))
  | line (l : List (ℚ × ℚ))
deriving DecidableEq, Repr

/-- Observable outcome of a successful line-agent run. -/
structure LineOut : Type where
  finalText : Str
  refined : Option Str
  parsed : Option (List (ℚ × ℚ))
  display : LineDisplay
deriving DecidableEq, Repr

/-- The PLAN step of the line agent: skipped (no collaborator call)
when a classified `queryType` is supplied, else one planning call whose
response is checked for the word "two". -/
def linePlanStep (o : LLMOracle) (queryType : Option QueryType) : AgentM Bool :=
  match queryType with
  | some qt => pure (qt.subtype == .routeSingle || qt.subtype == .directSingle)
  | none => do
      let planResponse ← callLLM o .plan
      pure (hasSub (lowerStr planResponse) "two".toList)

/-- The EXTRACT step of the line agent: reuse the coordinates of the
upstream AI text when their count matches the expected cardinality
(exactly 2 for a two-point line, at least 2 otherwise), else one
extraction call. -/
def lineExtractStep (o : LLMOracle) (aiMessage : Str) (isTwoPoints : Bool) : AgentM Str :=
  match parseCoordinates aiMessage with
  | some l =>
      if (isTwoPoints && l.length = 2) || (!isTwoPoints && l.length ≥ 2) then
        pure (renderCoords l)
      else callLLM o .extract
  | none => callLLM o .extract

/-- The REFLECT escalation of the line agent: no call when the fast
validation already matches expectations or already flagged refinement;
otherwise one judgement call checked for the word "refine". -/
def lineReflectStep (o : LLMOracle)
    (needsRef0 shouldBeMultiple extractionMatchesExpected : Bool) : AgentM Bool :=
  if !needsRef0 && !shouldBeMultiple && extractionMatchesExpected then pure false
  else if !needsRef0 && !shouldBeMultiple then do
    let reflectResponse ← callLLM o .reflect
    pure (hasSub (lowerStr reflectResponse) "refine".toList)
  else pure needsRef0

/-- The single conditional REFINE step shared (modulo prompt text) by
the point, line and polygon agents: at most one cleanup call, and the
agent proceeds with whatever the call returned. -/
def refineStep (o : LLMOracle) (needsRefinement : Bool) (extractResponse : Str) :
    AgentM (Str × Option Str) :=
  if needsRefinement then do
    let refineResponse ← callLLM o .refine
    pure (refineResponse, some refineResponse)
  else pure (extractResponse, (none : Option Str))

/-- The body of `extractLineCoordinates` (src/agents/lineAgent.js)
inside its `try`: PLAN (skipped when a classified `queryType` is
supplied), EXTRACT (reusing coordinates of the upstream AI text when
their count matches), REFLECT (fast local validation, escalating to a
collaborator judgement only when inconclusive), a single conditional
REFINE, then VALIDATE and the routing decision.  `dirResult` is the
outcome of the (internally caught, never-throwing) Mapbox Directions
wrapper. -/
def runLineBody (o : LLMOracle) (dirResult : Option String)
    (userMessage aiMessage : Str) (queryType : Option QueryType) : AgentM LineOut := do
  let commaCount := countChar userMessage ','
  let locationCount := commaCount + 1
  let hasChainKeywords := ["through", "via", "path", "chain", "sequence", "waypoints",
    "waypoint"].any fun kw => hasSub (lowerStr userMessage) kw.toList
  let hasAndOther := testRE andOtherRE userMessage
  let isTwoPoints0 ← linePlanStep o queryType
  let isTwoPoints1 :=
    if hasChainKeywords || hasAndOther || locationCount ≥ 3 then false else isTwoPoints0
  let extractResponse ← lineExtractStep o aiMessage isTwoPoints1
  let coordCount := (execList looseCoordRE extractResponse).length
  let flags :=
    if isTwoPoints1 && coordCount > 2 then
      if hasChainKeywords || hasAndOther || locationCount ≥ 3 then (true, true, false)
      else (true, false, isTwoPoints1)
    else if coordCount < 2 then (true, false, isTwoPoints1)
    else if coordCount ≥ 2 && !hasSub extractResponse ['|'] && coordCount > 1 then
      (true, false, isTwoPoints1)
    else (false, false, isTwoPoints1)
  let needsRef0 := flags.1
  let shouldBeMultiple := flags.2.1
  let isTwoPoints2 := flags.2.2
  let extractionMatchesExpected :=
    (isTwoPoints2 && coordCount = 2) || (!isTwoPoints2 && coordCount ≥ 2)
  let needsRefinement ← lineReflectStep o needsRef0 shouldBeMultiple extractionMatchesExpected
  let rs ← refineStep o needsRefinement extractResponse
  let finalCoordinates := rs.1
  let parsedCoordinates := parseCoordinates finalCoordinates
  let needsRoute : Bool :=
    match queryType with
    | some qt => qt.subtype == .routeSingle || qt.subtype == .routeMulti
    | none => needsRouting userMessage
  let display :=
    match parsedCoordinates with
    | some l =>
        if l.length = 1 then LineDisplay.points l
        else if needsRoute then
          let coords := convertCoordinatesForDirections l
          if coords.length ≥ 2 then
            match dirResult with
            | some rd => LineDisplay.route rd coords
            | none => LineDisplay.line l
          else LineDisplay.line l
        else LineDisplay.line l
    | none => LineDisplay.nothing
  pure ⟨finalCoordinates, rs.2, parsedCoordinates, display⟩

/-- The boundary of the line agent: the whole body runs inside
`try { … } catch (error) { console.error(…) }` and the JavaScript
function returns `undefined` on success and on failure alike; the model
returns the (always-`none`) structured result together with the trace
of issued collaborator calls. -/
def extractLineCoordinates (o : LLMOracle) (dirResult : Option String)
    (userMessage aiMessage : Str) (queryType : Option QueryType) :
    Option AgentResult × List CallTag :=
  match runAgent (runLineBody o dirResult userMessage aiMessage queryType) with
  | (_, tr) => (none, tr)

/-- Observable outcome of a successful point-agent run. -/
structure PointOut : Type where
  finalText : Str
  refined : Option Str
  parsed : Option (List (ℚ × ℚ))
deriving DecidableEq, Repr

/-- The PLAN step of the point agent: skipped given a `queryType`,
else one planning call checked for the word "single".  The full body
below: PLAN, an unconditional EXTRACT call, REFLECT (fast validation;
a collaborator judgement call when the fast checks pass), a single
conditional REFINE, then VALIDATE. -/
def pointPlanStep (o : LLMOracle) (queryType : Option QueryType) : AgentM Bool :=
  match queryType with
  | some qt => pure (qt.subtype == .single)
  | none => do
      let planResponse ← callLLM o .plan
      pure (hasSub (lowerStr planResponse) "single".toList)

/-- The REFLECT escalation of the point agent: a judgement call is made
exactly when the fast validation found nothing wrong. -/
def pointReflectStep (o : LLMOracle) (needsRef0 : Bool) : AgentM Bool :=
  if !needsRef0 then do
    let reflectResponse ← callLLM o .reflect
    pure (hasSub (lowerStr reflectResponse) "refine".toList)
  else pure needsRef0

/-- The body of `extractCoordinates` (src/agents/pointAgent.js) inside
its `try`. -/
def runPointBody (o : LLMOracle) (userMessage _aiMessage : Str)
    (queryType : Option QueryType) : AgentM PointOut := do
  let isSingleLocation0 ← pointPlanStep o queryType
  let extractResponse ← callLLM o .extract
  let coordCount := (execList looseCoordRE extractResponse).length
  let needsRef0 :=
    if isSingleLocation0 && coordCount > 1 then true
    else if coordCount = 0 then true
    else if !isSingleLocation0 && coordCount = 1
        && hasSub (lowerStr userMessage) "multiple".toList then true
    else false
  let needsRefinement ← pointReflectStep o needsRef0
  let rs ← refineStep o needsRefinement extractResponse
  let finalCoordinates := rs.1
  let parsedCoordinates := parseCoordinates finalCoordinates
  pure ⟨finalCoordinates, rs.2, parsedCoordinates⟩

/-- The boundary of the point agent: `try`/`catch` that logs and
returns `undefined` in every case, as in the source. -/
def extractCoordinates (o : LLMOracle) (userMessage aiMessage : Str)
    (queryType : Option QueryType) : Option AgentResult × List CallTag :=
  match runAgent (runPointBody o userMessage aiMessage queryType) with
  | (_, tr) => (none, tr)

/-- First index at which `needle` occurs in the string (`indexOf`). -/
def indexOfSub : Str → Str → Option ℕ
  | hay, needle =>
    if startsWith hay needle then some 0
    else match hay with
      | [] => none
      | _ :: t => (indexOfSub t needle).map (· + 1)

/-- `String.prototype.split` on a non-empty separator, with fuel. -/
def splitOnSubF (sep : Str) : ℕ → Str → List Str
  | 0, s => [s]
  | fuel + 1, s =>
    match indexOfSub s sep with
    | none => [s]
    | some i => s.take i :: splitOnSubF sep fuel (s.drop (i + sep.length))

/-- `String.prototype.split` on a non-empty separator. -/
def splitOnSub (sep s : Str) : List Str := splitOnSubF sep (s.length + 1) s

/-- The ring-closure step of the polygon agent: append the first vertex
when it differs from the last (exact comparison), as in
`coords.push(coords[0])`. -/
def closeRing (coords : List (ℚ × ℚ)) : List (ℚ × ℚ) :=
  match coords.head?, coords.getLast? with
  | some f, some l => if f ≠ l then coords ++ [f] else coords
  | _, _ => coords

/-- The VALIDATE step of the polygon agent: split on `||` when the
multiple-polygon path applies, parse each part, keep parts with at
least 3 vertices, flip to `[lng, lat]` order and close each ring. -/
def polysFromText (isMultiplePolygons : Bool) (finalCoordinates : Str) :
    List (List (ℚ × ℚ)) :=
  if isMultiplePolygons && hasSub finalCoordinates ['|', '|'] then
    ((splitOnSub ['|', '|'] finalCoordinates).map trimStr).filterMap fun polyStr =>
      match parseCoordinates polyStr with
      | some l =>
          let coords := l.map fun p => (p.2, p.1)
          if coords.length ≥ 3 then some (closeRing coords) else none
      | none => none
  else
    match parseCoordinates finalCoordinates with
    | some l =>
        let coords := l.map fun p => (p.2, p.1)
        if coords.length ≥ 3 then [closeRing coords] else []
    | none => []

/-- Observable outcome of a successful polygon-agent run. -/
structure PolyOut : Type where
  finalText : Str
  refined : Option Str
  polygons : List (List (ℚ × ℚ))
deriving DecidableEq, Repr

/-- The PLAN step of the polygon agent: skipped given a `queryType`,
else one planning call (ORed with the local multiple heuristic).  The
full body below: PLAN, EXTRACT, REFLECT, a single conditional REFINE,
then the VALIDATE split/close step; throws when no valid polygon
results. -/
def polyPlanStep (o : LLMOracle) (queryType : Option QueryType)
    (hasMultiple : Bool) : AgentM Bool :=
  match queryType with
  | some qt => pure (qt.subtype == .multiple)
  | none => do
      let planResponse ← callLLM o .plan
      pure (hasSub (lowerStr planResponse) "multiple".toList || hasMultiple)

/-- The EXTRACT step of the polygon agent: reuse the AI text when it
already parses to at least 3 pairs, else one extraction call. -/
def polyExtractStep (o : LLMOracle) (aiMessage : Str) : AgentM Str :=
  match parseCoordinates aiMessage with
  | some l => if l.length ≥ 3 then pure (renderCoords l) else callLLM o .extract
  | none => callLLM o .extract

/-- The REFLECT escalation of the polygon agent: a judgement call is
made exactly when the fast validation flagged a problem, and its
response can clear the flag. -/
def polyReflectStep (o : LLMOracle) (needsRef0 : Bool) (coordCount : ℕ) : AgentM Bool :=
  if !needsRef0 && coordCount ≥ 3 then pure false
  else if needsRef0 then do
    let reflectResponse ← callLLM o .reflect
    pure (hasSub (lowerStr reflectResponse) "refine".toList)
  else pure needsRef0

/-- The body of `extractPolygon` (src/agents/polygonAgent.js) inside
its `try`. -/
def runPolyBody (o : LLMOracle) (userMessage aiMessage : Str)
    (queryType : Option QueryType) : AgentM PolyOut := do
  let commaCount := countChar userMessage ','
  let locationCount := commaCount + 1
  let hasMultiple := locationCount ≥ 2 || testRE bareAndRE userMessage
  let isMultiplePolygons ← polyPlanStep o queryType hasMultiple
  let extractResponse ← polyExtractStep o aiMessage
  let coordCount := (execList looseCoordRE extractResponse).length
  let needsRef0 : Bool :=
    if coordCount < 3 then true
    else if !hasSub extractResponse ['|'] && coordCount > 1 then true
    else false
  let needsRefinement ← polyReflectStep o needsRef0 coordCount
  let rs ← refineStep o needsRefinement extractResponse
  let finalCoordinates := rs.1
  let polygons := polysFromText isMultiplePolygons finalCoordinates
  if polygons.isEmpty then throwErr "No valid polygons extracted"
  else pure ⟨finalCoordinates, rs.2, polygons⟩

/-- The boundary of the polygon agent: returns `{success:true, …}`, or
`{success:false, error}` when any step throws. -/
def extractPolygon (o : LLMOracle) (userMessage aiMessage : Str)
    (queryType : Option QueryType) : Option AgentResult × List CallTag :=
  match runAgent (runPolyBody o userMessage aiMessage queryType) with
  | (.ok _, tr) => (some ⟨true, none, none⟩, tr)
  | (.error e, tr) => (some ⟨false, some e, none⟩, tr)

/-- Observable outcome of a successful isochrone-agent run. -/
structure IsoOut : Type where
  coordinates : ℚ × ℚ
  isochroneData : String
  travelMode : String
  useTime : Bool
  values : List ℤ
deriving DecidableEq, Repr

/-- The body of `extractIsochrone` (src/agents/isochroneAgent.js)
inside its `try`: PLAN (skipped given a `queryType`), one location
extraction call (always issued), the "here"/"current location" alias
resolved against the user-position or map-center collaborator, the
`parseCoordinates` fallbacks over the response, the user text and the
AI text, then independent time/distance extraction over the combined
lower-cased text with time prioritized, and the isochrone API call
(whose wrapper catches internally, modelled by the `Option`-valued
`isoResult`). -/
def runIsoBody (o : LLMOracle) (isoResult : Option String)
    (userLoc : Option (ℚ × ℚ)) (mapCenter : ℚ × ℚ)
    (userMessage aiMessage : Str) (queryType : Option QueryType) : AgentM IsoOut := do
  let planResponse ←
    match queryType with
    | some qt =>
        pure (if qt.subtype == .single then "Pre-detected: single contour".toList
              else "Pre-detected: multiple contour".toList)
    | none => callLLM o .plan
  let _isMultiple := hasSub (lowerStr planResponse) "multiple".toList ||
    (match queryType with | some qt => qt.subtype == .multiple | none => false)
  let locationResponse ← callLLM o .location
  let locationLower := trimStr (lowerStr locationResponse)
  let coordinates ←
    if locationLower = "here".toList
        || hasSub locationLower "current location".toList then
      match userLoc with
      | some p => pure p
      | none => pure mapCenter
    else
      let c1 : Option (ℚ × ℚ) :=
        match parseCoordinates locationResponse with
        | some l => l.head?.map fun p => (p.2, p.1)
        | none => none
      let c2 : Option (ℚ × ℚ) :=
        match c1 with
        | some p => some p
        | none =>
          match parseCoordinates userMessage with
          | some l => l.head?.map fun p => (p.2, p.1)
          | none => none
      let c3 : Option (ℚ × ℚ) :=
        match c2 with
        | some p => some p
        | none =>
          match parseCoordinates aiMessage with
          | some l => l.head?.map fun p => (p.2, p.1)
          | none => none
      match c3 with
      | some p => pure p
      | none => throwErr "Could not extract location coordinates"
  let combinedQuery := lowerStr (userMessage ++ ' ' :: aiMessage)
  let timeValues := extractTimeValues combinedQuery
  let distanceValues := extractDistanceValues combinedQuery
  let useTime := timeValues.length > 0
  let useDistance := distanceValues.length > 0 && timeValues.length = 0
  if !useTime && !useDistance then
    throwErr "Could not extract time or distance values"
  else
    let travelMode := detectTravelMode userMessage
    match isoResult with
    | none => throwErr "Failed to get isochrone data from API"
    | some data =>
        pure ⟨coordinates, data, travelMode, useTime,
              if useTime then timeValues else distanceValues⟩

/-- The boundary of the isochrone agent: `{success:true, …}` on
success, `{success:false, error}` when any step throws. -/
def extractIsochrone (o : LLMOracle) (isoResult : Option String)
    (userLoc : Option (ℚ × ℚ)) (mapCenter : ℚ × ℚ)
    (userMessage aiMessage : Str) (queryType : Option QueryType) :
    Option AgentResult × List CallTag :=
  match runAgent (runIsoBody o isoResult userLoc mapCenter userMessage aiMessage queryType) with
  | (.ok _, tr) => (some ⟨true, none, none⟩, tr)
  | (.error e, tr) => (some ⟨false, some e, none⟩, tr)

/-- Type tag of a selected feature (the feature-selection registry). -/
inductive FeatType : Type
  | marker | buffer | isochrone | line | polygon
deriving DecidableEq, Repr

/-- Coordinate payload of a selected feature: a list of `[lng, lat]`
pairs (marker / line / polygon conventions) or a single `[lng, lat]`
center (buffer / isochrone conventions). -/
inductive FeatCoords : Type
  | pts (l : List (ℚ × ℚ))
  | ctr (p : ℚ × ℚ)
deriving DecidableEq, Repr

/-- A selected feature as read from the registry at agent start. -/
structure SelectedFeature : Type where
  ftype : FeatType
  coordinates : FeatCoords
deriving DecidableEq, Repr

/-- The per-feature-type center resolution of `extractBuffer`, in
`(lat, lon)` order (the `centerCoord` template string): first pair of a
marker, stored center of a buffer/isochrone, middle vertex of a line,
first vertex of a polygon. -/
def featureCenter (f : SelectedFeature) : Option (ℚ × ℚ) :=
  match f.ftype, f.coordinates with
  | .marker, .pts l => l.head?.map fun p => (p.2, p.1)
  | .buffer, .ctr p => some (p.2, p.1)
  | .isochrone, .ctr p => some (p.2, p.1)
  | .line, .pts l => l[l.length / 2]?.map fun p => (p.2, p.1)
  | .polygon, .pts l => l.head?.map fun p => (p.2, p.1)
  | _, _ => none

/-- The unit alternation of the buffer radius regexes
`(km|kilometer|kilometers|mile|miles|m|meter|meters|mi)`. -/
def radiusUnitAlt : RE :=
  alts [wCI "km", wCI "kilometer", wCI "kilometers", wCI "mile", wCI "miles",
        wCI "m", wCI "meter", wCI "meters", wCI "mi"]

/-- The radius-location pair regex of `extractBuffer`:
`/(\d+(?:\.\d+)?)\s*(unit)\s*(?:on|over|around|for)\s*([^,]+?)(?:,|and|\s*$)/gi`. -/
def radiusPairRE : RE :=
  seqs [.group 1 (seqs [digits1, optR (seqs [chr '.', digits1])]), wsStar,
        .group 2 radiusUnitAlt, wsStar,
        alts [wCI "on", wCI "over", wCI "around", wCI "for"], wsStar,
        .group 3 (lazyPlusC fun c => !(c = ',')),
        alts [lit [','], wCI "and", seqs [wsStar, .endA]]]

/-- The location-count regex of `extractBuffer`:
`/\b(?:on|over|around|for)\s+([^,]+?)(?:,|and|\s*$)/gi`. -/
def locCountRE : RE :=
  seqs [.wordB, alts [wCI "on", wCI "over", wCI "around", wCI "for"], sp1,
        .group 1 (lazyPlusC fun c => !(c = ',')),
        alts [lit [','], wCI "and", seqs [wsStar, .endA]]]

/-- The simple radius regex `/(\d+(?:\.\d+)?)\s*(unit)/i`. -/
def simpleRadiusRE : RE :=
  seqs [.group 1 (seqs [digits1, optR (seqs [chr '.', digits1])]), wsStar,
        .group 2 radiusUnitAlt]

/-- `/\d+(?:\.\d+)?/` (first numeric token of the radius response). -/
def bareNumRE : RE :=
  .group 1 (seqs [digits1, optR (seqs [chr '.', digits1])])

/-- The unit conversion of the buffer radius extraction (both the
pair loop and the simple match): km kept, miles × 1.60934, meters
÷ 1000. -/
def radiusFromUnit (value : ℚ) (unit : Str) : ℚ :=
  let u := lowerStr unit
  if u = "km".toList || u = "kilometer".toList || u = "kilometers".toList then value
  else if u = "mile".toList || u = "miles".toList || u = "mi".toList then
    value * (160934 / 100000)
  else if u = "m".toList || u = "meter".toList || u = "meters".toList then value / 1000
  else 5

/-- One extracted radius-location pair. -/
structure RadiusMatch : Type where
  location : Str
  radiusKm : ℚ
deriving DecidableEq, Repr

/-- `getRadiusForCenter` of `extractBuffer`: location-specific radii
are matched to centers by order with the last radius as fallback;
otherwise the first (or default 5 km) radius applies to every
center. -/
def getRadiusForCenter (radiusMatches : List RadiusMatch) (i : ℕ) : ℚ :=
  match radiusMatches with
  | [] => 5
  | first :: _ =>
    if first.location ≠ [] then
      match radiusMatches[i]? with
      | some m => m.radiusKm
      | none =>
        match radiusMatches.getLast? with
        | some m => m.radiusKm
        | none => 5
    else first.radiusKm

/-- One generated buffer: center in Mapbox `[lng, lat]` order, radius
in kilometers, generated ring. -/
structure BufferRec (α : Type) : Type where
  center : ℚ × ℚ
  radius : ℚ
  polygon : List (α × α)

/-- Outcome of the buffer-agent body: the two early returns (no parsed
centers / none surviving validation) or the generated buffers together
with the multiple-display flag. -/
inductive BufferOut (α : Type) : Type
  | noCenters
  | noValidCenters
  | done (buffers : List (BufferRec α)) (multi : Bool)

/-- The body of `extractBuffer` (src/agents/bufferAgent.js) inside its
`try`: center resolution from the selected feature, else from the AI
text when the parsed count matches, else one extraction call; parse and
validate centers; cluster on over-extraction; radius-location pair
extraction with simple-pattern and collaborator fallbacks; circle
generation.  The geometry field, its sine/cosine/π and the `ℚ`
embedding are parameters (`Real.sin`/`Real.cos`/`Real.pi`/cast in the
theorems). -/
def runBufferBody {α : Type} [Field α] (o : LLMOracle)
    (selected : Option SelectedFeature) (s c : α → α) (piV : α) (qcast : ℚ → α)
    (userMessage aiMessage : Str) (queryType : Option QueryType) :
    AgentM (BufferOut α) := do
  let isMultiple : Bool :=
    match queryType with
    | some qt => qt.subtype == .multiple
    | none => false
  let fromFeature := selected.bind featureCenter
  let extractCenterResponse ←
    match fromFeature with
    | some p => pure (renderPair p)
    | none =>
      match parseCoordinates aiMessage with
      | some l =>
          let matchesExpected := (isMultiple && l.length ≥ 2) || (!isMultiple && l.length = 1)
          if matchesExpected then pure (renderCoords l) else callLLM o .center
      | none => callLLM o .center
  match parseCoordinates extractCenterResponse with
  | none => pure .noCenters
  | some centerList => do
    let centers0 := validCenters centerList
    let locationCount := (execList locCountRE userMessage).length
    let expectedLocations := max 1 locationCount
    let centers :=
      if isMultiple && centers0.length > expectedLocations then
        clusterNearbyCenters centers0
      else centers0
    if centers.isEmpty then pure .noValidCenters
    else do
      let radiusMatches0 : List RadiusMatch :=
        (execList radiusPairRE userMessage).filterMap fun m =>
          match capGet userMessage m.2.2 1, capGet userMessage m.2.2 2,
              capGet userMessage m.2.2 3 with
          | some v, some unit, some loc =>
              some ⟨trimStr (lowerStr loc), radiusFromUnit (parseDec v) unit⟩
          | _, _, _ => none
      let radiusMatches ←
        if radiusMatches0.isEmpty then
          match findFrom simpleRadiusRE userMessage 0 with
          | some m =>
            (match capGet userMessage m.2.2 1, capGet userMessage m.2.2 2 with
             | some v, some unit =>
                 pure (centers.map fun _ =>
                   (⟨[], radiusFromUnit (parseDec v) unit⟩ : RadiusMatch))
             | _, _ => pure (centers.map fun _ => (⟨[], 5⟩ : RadiusMatch)))
          | none => do
            let resp ← callLLM o .radius
            let radiusValue :=
              match findFrom bareNumRE resp 0 with
              | some m =>
                match capGet resp m.2.2 1 with
                | some v => parseDec v
                | none => 5
              | none => 5
            pure (centers.map fun _ => (⟨[], radiusValue⟩ : RadiusMatch))
        else pure radiusMatches0
      let buffers := centers.enum.map fun ip =>
        let r := getRadiusForCenter radiusMatches ip.1
        ({center := (ip.2.2, ip.2.1), radius := r,
          polygon := generateCircle s c piV (qcast ip.2.1, qcast ip.2.2) (qcast r) 64}
          : BufferRec α)
      pure (.done buffers isMultiple)

/-- The boundary of the buffer agent: `try`/`catch` that logs and
returns `undefined` in every case. -/
def extractBuffer {α : Type} [Field α] (o : LLMOracle)
    (selected : Option SelectedFeature) (s c : α → α) (piV : α) (qcast : ℚ → α)
    (userMessage aiMessage : Str) (queryType : Option QueryType) :
    Option AgentResult × List CallTag :=
  match runAgent (runBufferBody o selected s c piV qcast userMessage aiMessage queryType) with
  | (_, tr) => (none, tr)

/-- Observable outcome of the elevation-agent body. -/
structure ElevOut : Type where
  success : Bool
  message : Option String
  displayed : Option (List (ℚ × ℚ))
deriving DecidableEq, Repr

/-- The helper `extractLineCoordinatesForElevation`: a single
best-effort `parseCoordinates` pass over the AI text (no collaborator
call, no refinement); `none` below 2 pairs. -/
def elevationCoordsFromText (aiMessage : Str) : Option (List (ℚ × ℚ)) :=
  match parseCoordinates aiMessage with
  | some l =>
      let routeCoords := l.map fun p => (p.2, p.1)
      if routeCoords.length ≥ 2 then some routeCoords else none
  | none => none

/-- The body of `extractElevationProfile`
(src/agents/elevationAgent.js) inside its `try`: coordinates from a
selected line feature, else from the helper above; the structured
failure results of the source are normal return values, not throws.
(A line-type feature always stores a vertex list; the center-shaped
payload cannot occur for it and falls through to text extraction.) -/
def runElevationBody (selected : Option SelectedFeature)
    (_userMessage aiMessage : Str) (_queryType : Option QueryType) : AgentM ElevOut := do
  let fromFeature : Option (List (ℚ × ℚ)) :=
    match selected with
    | some f =>
        if f.ftype == .line then
          match f.coordinates with
          | .pts l => some l
          | .ctr _ => none
        else none
    | none => none
  match fromFeature with
  | some routeCoordinates =>
      if routeCoordinates.length < 2 then
        pure ⟨false, some "Invalid route coordinates", none⟩
      else
        pure ⟨true, none, some routeCoordinates⟩
  | none =>
      match elevationCoordsFromText aiMessage with
      | some routeCoordinates =>
          if routeCoordinates.length < 2 then
            pure ⟨false, some "Invalid route coordinates", none⟩
          else
            pure ⟨true, none, some routeCoordinates⟩
      | none => pure ⟨false, some "Could not extract line coordinates", none⟩

/-- The boundary of the elevation agent: the structured result of the
body on success, `{success:false, message}` when a step throws. -/
def extractElevationProfile (selected : Option SelectedFeature)
    (userMessage aiMessage : Str) (queryType : Option QueryType) :
    Option AgentResult × List CallTag :=
  match runAgent (runElevationBody selected userMessage aiMessage queryType) with
  | (.ok out, tr) => (some ⟨out.success, none, out.message⟩, tr)
  | (.error e, tr) => (some ⟨false, none, some e⟩, tr)

/-- The classifier as the dispatcher invokes it: a synchronous call
that never touches the text-completion collaborator — the trace of
collaborator calls is empty because `detectQueryType` contains no call
site. -/
def classifyQuery (_o : LLMOracle) (userMessage aiMessage : Str) :
    QueryType × List CallTag :=
  (detectQueryType userMessage aiMessage, [])

/-- Digit character of a digit value. -/
def digitChar (d : ℕ) : Char := Char.ofNat (48 + d)

/-- Natural value of a digit list (most significant first). -/
def natOfDigits (l : List ℕ) : ℕ := l.foldl (fun a d => 10 * a + d) 0

/-- A plain decimal literal: the JavaScript decimal rendering
`[-]digits[.digits]` of a finite-decimal number. -/
structure DecLit : Type where
  neg : Bool
  ip : List ℕ
  fp : Option (List ℕ)

/-- Well-formedness: non-empty integer part, digits below 10, and a
non-empty fraction part when present. -/
def DecLit.valid (d : DecLit) : Prop :=
  d.ip ≠ [] ∧ (∀ x ∈ d.ip, x < 10) ∧
    (∀ l, d.fp = some l → l ≠ [] ∧ ∀ x ∈ l, x < 10)

/-- Number of digit characters of the rendering. -/
def DecLit.digitCount (d : DecLit) : ℕ :=
  d.ip.length + (match d.fp with | some l => l.length | none => 0)

/-- The literal text of the decimal. -/
def DecLit.render (d : DecLit) : Str :=
  (if d.neg then ['-'] else []) ++ d.ip.map digitChar ++
    (match d.fp with
     | some l => '.' :: l.map digitChar
     | none => [])

/-- The numeric value of the decimal, as an exact rational. -/
def DecLit.val (d : DecLit) : ℚ :=
  let base : ℚ := (natOfDigits d.ip : ℚ) +
    (match d.fp with
     | some l => (natOfDigits l : ℚ) / (10 : ℚ) ^ l.length
     | none => 0)
  if d.neg then -base else base

/-- Projection used to phrase buffer-agent counterexamples: the centers
of the generated buffers. -/
def buffCenters {α : Type} (out : BufferOut α) : List (ℚ × ℚ) :=
  match out with
  | .done bs _ => bs.map fun b => b.center
  | _ => []

/-- C8: the query classifier is deterministic and makes no
text-completion call: its result is independent of the collaborator
oracle, two runs on identical `(userText, aiText)` agree, the call
trace is empty, and the result is the pure `detectQueryType`
classification. -/
theorem classifyQuery_deterministic_no_llm :
    ∀ (o1 o2 : LLMOracle) (u a : Str),
      classifyQuery o1 u a = classifyQuery o2 u a ∧
        (classifyQuery o1 u a).2 = [] ∧
        (classifyQuery o1 u a).1 = detectQueryType u a := by
  intro o1 o2 u a
  exact ⟨rfl, rfl, rfl⟩

/-- C9: the greedy center clustering is the identity on every list of
centers in which no two entries (at distinct positions) are both within
0.5° latitude and 0.5° longitude of each other. -/
theorem clusterNearbyCenters_idempotent :
    ∀ centers : List (ℚ × ℚ),
      centers.Pairwise
        (fun p q => ¬(|p.1 - q.1| < 1 / 2 ∧ |p.2 - q.2| < 1 / 2)) →
      clusterNearbyCenters centers = centers := by
  intro centers
  induction centers with
  | nil => intro _; simp [clusterNearbyCenters]
  | cons h t ih =>
    intro hp
    rw [List.pairwise_cons] at hp
    rw [clusterNearbyCenters]
    have hfilter : (t.filter fun p => !(|p.1 - h.1| < 1 / 2 && |p.2 - h.2| < 1 / 2)) = t := by
      apply List.filter_eq_self.mpr
      intro p hmem
      have := hp.1 p hmem
      simp only [Bool.not_eq_true', Bool.and_eq_true, decide_eq_true_eq] at *
      by_contra hcon
      simp only [Bool.not_eq_false, Bool.and_eq_true, decide_eq_true_eq] at hcon
      exact this ⟨by linarith [abs_sub_comm p.1 h.1, hcon.1],
                  by linarith [abs_sub_comm p.2 h.2, hcon.2]⟩
    rw [hfilter, ih hp.2]

/-- Witness for the clustering idempotence theorem at a concrete
separated list. -/
theorem clusterNearbyCenters_idempotent_witness :
    clusterNearbyCenters [(0, 0), (10, 10), (20, 0)] = [(0, 0), (10, 10), (20, 0)] :=
  clusterNearbyCenters_idempotent _ (by norm_num [List.pairwise_cons])

/-- Head of a map over `List.range (n+1)`. -/
theorem head_map_range {α : Type} (f : ℕ → α) (n : ℕ) :
    ((List.range (n + 1)).map f).head? = some (f 0) := by
  rw [List.range_succ_eq_map]
  simp

/-- Last element of a map over `List.range (n+1)`. -/
theorem last_map_range {α : Type} (f : ℕ → α) (n : ℕ) :
    ((List.range (n + 1)).map f).getLast? = some (f n) := by
  rw [List.range_succ, List.map_append]
  simp

/-- Element `n` of a map over `List.range (n+1)`. -/
theorem getElem_map_range {α : Type} (f : ℕ → α) (n : ℕ) :
    ((List.range (n + 1)).map f)[n]? = some (f n) := by
  rw [List.getElem?_map, List.getElem?_range (Nat.lt_succ_self n)]
  rfl

/-- Unfolded form of `generateCircle`. -/
theorem generateCircle_eq {α : Type} [Field α] (s c : α → α) (piV : α)
    (center : α × α) (radiusKm : α) (numPoints : ℕ) :
    generateCircle s c piV center radiusKm numPoints =
      (List.range (numPoints + 1)).map (fun i =>
        (center.2 + radiusKm / (111 * c (center.1 * piV / 180)) *
            c (((i : ℕ) : α) / (numPoints : α) * 2 * piV),
         center.1 + radiusKm / 111 * s (((i : ℕ) : α) / (numPoints : α) * 2 * piV))) := rfl

/-- The generated circle starts at the angle-0 vertex and ends at the
angle-2π vertex; when the supplied sine and cosine agree at `0` and
`2·piV` the two vertices coincide. -/
theorem generateCircle_last_eq_head {α : Type} [Field α] [CharZero α] (s c : α → α) (piV : α)
    (center : α × α) (radiusKm : α) (numPoints : ℕ)
    (hs : s (2 * piV) = s 0) (hc : c (2 * piV) = c 0) :
    (generateCircle s c piV center radiusKm numPoints).getLast? =
      (generateCircle s c piV center radiusKm numPoints).head? := by
  rw [generateCircle_eq, head_map_range, last_map_range]
  rcases Nat.eq_zero_or_pos numPoints with h0 | hpos
  · subst h0; rfl
  · have hn : ((numPoints : α)) ≠ 0 := Nat.cast_ne_zero.mpr hpos.ne'
    have hdiv : ((numPoints : α)) / (numPoints : α) = 1 := div_self hn
    simp only [Nat.cast_zero, zero_div, zero_mul, hdiv, one_mul, hs, hc]

/-- C5: `generateCircle(center, radiusKm, numPoints)` returns exactly
`numPoints + 1` vertices and the first vertex equals the last: the ring
is closed by construction (the angle samples run over `[0, 2π]`
inclusive), not by post-processing.  Stated over any field whose sine
and cosine collaborators agree at `0` and `2π`, which the real
`Real.sin`/`Real.cos` do. -/
theorem generateCircle_ring_closed {α : Type} [Field α] [CharZero α] (s c : α → α) (piV : α)
    (center : α × α) (radiusKm : α) (numPoints : ℕ)
    (hs : s (2 * piV) = s 0) (hc : c (2 * piV) = c 0) :
    (generateCircle s c piV center radiusKm numPoints).length = numPoints + 1 ∧
      (generateCircle s c piV center radiusKm numPoints).head? =
        (generateCircle s c piV center radiusKm numPoints).getLast? := by
  refine ⟨?_, (generateCircle_last_eq_head s c piV center radiusKm numPoints hs hc).symm⟩
  rw [generateCircle_eq]
  simp

/-- Witness for the circle-ring theorem with the real sine and cosine
at a concrete center, radius and the default 64 segments. -/
theorem generateCircle_ring_closed_witness :
    Real.sin (2 * Real.pi) = Real.sin 0 ∧ Real.cos (2 * Real.pi) = Real.cos 0 ∧
      (generateCircle Real.sin Real.cos Real.pi ((40 : ℝ), (-74 : ℝ)) 50 64).length = 65 ∧
      (generateCircle Real.sin Real.cos Real.pi ((40 : ℝ), (-74 : ℝ)) 50 64).head? =
        (generateCircle Real.sin Real.cos Real.pi ((40 : ℝ), (-74 : ℝ)) 50 64).getLast? := by
  have hs : Real.sin (2 * Real.pi) = Real.sin 0 := by
    rw [Real.sin_two_pi, Real.sin_zero]
  have hc : Real.cos (2 * Real.pi) = Real.cos 0 := by
    rw [Real.cos_two_pi, Real.cos_zero]
  have h := generateCircle_ring_closed Real.sin Real.cos Real.pi
    ((40 : ℝ), (-74 : ℝ)) 50 64 hs hc
  exact ⟨hs, hc, h.1, h.2⟩

/-- Head of an append with a non-empty left part. -/
theorem head_append_of_head {α : Type} (l m : List α) (a : α)
    (h : l.head? = some a) : (l ++ m).head? = some a := by
  cases l with
  | nil => simp at h
  | cons x xs => simpa using h

/-- The closing append of the display layer on a generated-circle
polygon. -/
theorem bufferRenderRing_map_range {α : Type} (f : ℕ → α) (n : ℕ) :
    bufferRenderRing ((List.range (n + 1)).map f) =
      some (((List.range (n + 1)).map f) ++ [f 0]) := by
  rw [List.range_succ_eq_map]
  simp [bufferRenderRing]

/-- C10: the ring handed to the map renderer for a buffer has
`numPoints + 2` vertices, not `numPoints + 1`: `generateCircle`
already emits the closing vertex (its angle samples run over `[0, 2π]`
inclusive), and the display layer (`displayBufferOnMap` and
`displayMultipleBuffersOnMap` alike) unconditionally appends the first
vertex once more, so the rendered ring's last vertex equals its first
and the generated closing vertex sits at position `numPoints`. -/
theorem buffer_rendered_ring_vertices {α : Type} [Field α] [CharZero α]
    (s c : α → α) (piV : α) (center : α × α) (radiusKm : α) (numPoints : ℕ)
    (hs : s (2 * piV) = s 0) (hc : c (2 * piV) = c 0) :
    ∀ ring, bufferRenderRing (generateCircle s c piV center radiusKm numPoints) = some ring →
      ring.length = numPoints + 2 ∧
      ring.getLast? = ring.head? ∧
      ring[numPoints]? = (generateCircle s c piV center radiusKm numPoints).getLast? ∧
      ring[numPoints]? = ring.head? ∧
      multiBufferRings [generateCircle s c piV center radiusKm numPoints] = [ring] := by
  intro ring hring
  have hlast := generateCircle_last_eq_head s c piV center radiusKm numPoints hs hc
  rw [generateCircle_eq] at hring hlast ⊢
  rw [bufferRenderRing_map_range] at hring
  have hring' := Option.some.inj hring
  subst hring'
  set f : ℕ → α × α := fun i =>
    (center.2 + radiusKm / (111 * c (center.1 * piV / 180)) *
        c (((i : ℕ) : α) / (numPoints : α) * 2 * piV),
     center.1 + radiusKm / 111 * s (((i : ℕ) : α) / (numPoints : α) * 2 * piV)) with hf
  have hhead : ((List.range (numPoints + 1)).map f).head? = some (f 0) :=
    head_map_range f numPoints
  have hlen : ((List.range (numPoints + 1)).map f).length = numPoints + 1 := by simp
  have hidx : numPoints < (List.map f (List.range (numPoints + 1))).length := by
    rw [hlen]; exact Nat.lt_succ_self numPoints
  refine ⟨by simp, ?_, ?_, ?_, ?_⟩
  · rw [List.getLast?_concat]
    exact (head_append_of_head _ _ _ hhead).symm
  · rw [List.getElem?_append, if_pos hidx, getElem_map_range, last_map_range]
  · rw [List.getElem?_append, if_pos hidx, getElem_map_range,
      head_append_of_head _ _ _ hhead]
    rw [last_map_range, head_map_range] at hlast
    exact hlast
  · rw [multiBufferRings]
    simp only [List.filterMap]
    rw [bufferRenderRing_map_range]

/-- Witness for the rendered-ring theorem: the real sine/cosine, the
spec scenario center and radius, and the default 64 segments give a
66-vertex rendered ring. -/
theorem buffer_rendered_ring_vertices_witness :
    Real.sin (2 * Real.pi) = Real.sin 0 ∧ Real.cos (2 * Real.pi) = Real.cos 0 ∧
      ((bufferRenderRing
        (generateCircle Real.sin Real.cos Real.pi ((40 : ℝ), (-74 : ℝ)) 50 64)).getD []).length
        = 64 + 2 := by
  have hs : Real.sin (2 * Real.pi) = Real.sin 0 := by
    rw [Real.sin_two_pi, Real.sin_zero]
  have hc : Real.cos (2 * Real.pi) = Real.cos 0 := by
    rw [Real.cos_two_pi, Real.cos_zero]
  have hsome : bufferRenderRing
      (generateCircle Real.sin Real.cos Real.pi ((40 : ℝ), (-74 : ℝ)) 50 64) =
      some ((bufferRenderRing
        (generateCircle Real.sin Real.cos Real.pi ((40 : ℝ), (-74 : ℝ)) 50 64)).getD []) := by
    rw [generateCircle_eq, bufferRenderRing_map_range]
    rfl
  exact ⟨hs, hc,
    (buffer_rendered_ring_vertices Real.sin Real.cos Real.pi ((40 : ℝ), (-74 : ℝ)) 50 64
      hs hc _ hsome).1⟩

/-- C6 counterexample: the center (0.05, 50) lies within 0.1° of the
latitude-axis origin (|lat| < 0.1), yet the buffer-agent filter keeps
it: the source condition conjoins the two axis tests
(`|lat| < 0.1 && |lon| < 0.1`), it does not take their disjunction. -/
theorem bufferCenter_axis_origin_kept :
    |(1 / 20 : ℚ)| < 1 / 10 ∧
      isInvalidCenter (1 / 20) 50 = false ∧
      validCenters [(1 / 20, 50)] = [(1 / 20, 50)] := by
  have habs1 : |(1 / 20 : ℚ)| = 1 / 20 := abs_of_nonneg (by norm_num)
  have habs2 : |(50 : ℚ)| = 50 := abs_of_nonneg (by norm_num)
  refine ⟨by rw [habs1]; norm_num, ?_, ?_⟩
  · simp only [isInvalidCenter, habs1, habs2]
    norm_num
  · simp only [validCenters, List.filter, isInvalidCenter, habs1, habs2]
    norm_num

/-- C6 (amended): a parsed center is discarded — never entering the
center list — when it is exactly (0,0), exactly (1,0), within 0.1° of
the origin on both axes, or beyond ±85° latitude. -/
theorem bufferCenter_discard_amended :
    ∀ (pairs : List (ℚ × ℚ)) (lat lon : ℚ),
      ((lat = 0 ∧ lon = 0) ∨ (lat = 1 ∧ lon = 0) ∨
        (|lat| < 1 / 10 ∧ |lon| < 1 / 10) ∨ 85 < |lat|) →
      (lat, lon) ∉ validCenters pairs := by
  intro pairs lat lon hcond hmem
  have hinv : isInvalidCenter lat lon = true := by
    simp only [isInvalidCenter, Bool.or_eq_true, Bool.and_eq_true, decide_eq_true_eq]
    tauto
  have hmem' := List.mem_filter.mp hmem
  rw [hinv] at hmem'
  simp at hmem'

/-- Witness for the amended discard theorem at (0,0). -/
theorem bufferCenter_discard_amended_witness :
    ((0 : ℚ), (0 : ℚ)) ∉ validCenters [(0, 0)] :=
  bufferCenter_discard_amended [(0, 0)] 0 0 (Or.inl ⟨rfl, rfl⟩)

/-- C3: on the query `"15, 30, 45 min drive zone"` the time extraction
returns `[45]`, not `[15, 30, 45]`: the regex
`\b(\d+)\s*(min|minute|minutes)\b` only binds the quantity directly
attached to the unit, so the comma-separated quantities 15 and 30 are
dropped — although the classifier and the isochrone planning prompt
treat exactly this phrasing as the canonical multiple-contour query. -/
theorem extractTimeValues_comma_list :
    extractTimeValues "15, 30, 45 min drive zone".toList = [45] ∧
      detectQueryType "15, 30, 45 min drive zone".toList [] =
        ⟨.isochrone, .multiple⟩ := by
  constructor
  · decide
  · decide

/-- C1 counterexample: when the planning step's collaborator call
throws, the line agent's boundary catches the exception (the body ends
in the error state after one issued call) but the invocation returns
JavaScript `undefined` — modelled `none` — not a structured
`{success:false, error}` result. -/
theorem line_agent_failure_returns_undefined :
    runAgent (runLineBody (fun _ => .error "network failure") none
        "show me route from San Francisco to Los Angeles".toList [] none) =
      (.error "network failure", [CallTag.plan]) ∧
    extractLineCoordinates (fun _ => .error "network failure") none
        "show me route from San Francisco to Los Angeles".toList [] none =
      (none, [CallTag.plan]) := by
  exact ⟨rfl, rfl⟩

/-- C1 (amended): every agent catches at its boundary — no exception
reaches the caller — but the shape of the failure result differs per
agent: the isochrone and polygon agents return `{success:false,
error}`, the elevation agent returns `{success:false, message}`, and
the point, line and buffer agents log and return `undefined` (`none`)
on success and failure alike. -/
theorem agent_boundary_failure_semantics :
    (∀ (o : LLMOracle) (dir : Option String) (u a : Str) (qt : Option QueryType),
       (extractLineCoordinates o dir u a qt).1 = none) ∧
    (∀ (o : LLMOracle) (u a : Str) (qt : Option QueryType),
       (extractCoordinates o u a qt).1 = none) ∧
    (∀ (α : Type) (inst : Field α) (o : LLMOracle) (sel : Option SelectedFeature)
       (s c : α → α) (piV : α) (qc : ℚ → α) (u a : Str) (qt : Option QueryType),
       (@extractBuffer α inst o sel s c piV qc u a qt).1 = none) ∧
    (∀ (o : LLMOracle) (u a : Str) (qt : Option QueryType) (e : String)
       (tr : List CallTag),
       runAgent (runPolyBody o u a qt) = (.error e, tr) →
       extractPolygon o u a qt = (some ⟨false, some e, none⟩, tr)) ∧
    (∀ (o : LLMOracle) (isoR : Option String) (uLoc : Option (ℚ × ℚ))
       (mc : ℚ × ℚ) (u a : Str) (qt : Option QueryType) (e : String)
       (tr : List CallTag),
       runAgent (runIsoBody o isoR uLoc mc u a qt) = (.error e, tr) →
       extractIsochrone o isoR uLoc mc u a qt = (some ⟨false, some e, none⟩, tr)) ∧
    (∀ (sel : Option SelectedFeature) (u a : Str) (qt : Option QueryType)
       (e : String) (tr : List CallTag),
       runAgent (runElevationBody sel u a qt) = (.error e, tr) →
       extractElevationProfile sel u a qt = (some ⟨false, none, some e⟩, tr)) := by
  refine ⟨?_, ?_, ?_, ?_, ?_, ?_⟩
  · intro o dir u a qt
    rcases hrun : runAgent (runLineBody o dir u a qt) with ⟨r, tr⟩
    simp [extractLineCoordinates, hrun]
  · intro o u a qt
    rcases hrun : runAgent (runPointBody o u a qt) with ⟨r, tr⟩
    simp [extractCoordinates, hrun]
  · intro α inst o sel s c piV qc u a qt
    rcases hrun : runAgent (runBufferBody o sel s c piV qc u a qt) with ⟨r, tr⟩
    simp [extractBuffer, hrun]
  · intro o u a qt e tr h
    simp [extractPolygon, h]
  · intro o isoR uLoc mc u a qt e tr h
    simp [extractIsochrone, h]
  · intro sel u a qt e tr h
    simp [extractElevationProfile, h]

/-- Witness for the boundary theorem: a polygon-agent invocation whose
planning call throws returns the structured failure result. -/
theorem agent_boundary_failure_semantics_witness :
    extractPolygon (fun _ => .error "llm down") "a, b, c".toList [] none =
      (some ⟨false, some "llm down", none⟩, [CallTag.plan]) :=
  agent_boundary_failure_semantics.2.2.2.1 (fun _ => .error "llm down")
    "a, b, c".toList [] none "llm down" [CallTag.plan] rfl

/-- Unfolded run of a bound agent computation. -/
theorem AgentM.bind_def {α β : Type} (x : AgentM α) (f : α → AgentM β)
    (tr : List CallTag) :
    (x >>= f) tr = match x tr with
      | (.ok a, tr1) => f a tr1
      | (.error e, tr1) => (.error e, tr1) := rfl

/-- Unfolded run of a pure agent computation. -/
theorem AgentM.pure_def {α : Type} (a : α) (tr : List CallTag) :
    (pure a : AgentM α) tr = (.ok a, tr) := rfl

/-- `x` adds at most `n` REFINE calls to any trace it is run on. -/
def AddsAtMost {α : Type} (x : AgentM α) (n : ℕ) : Prop :=
  ∀ tr, countRefine (x tr).2 ≤ countRefine tr + n

/-- A pure step issues no call. -/
theorem addsAtMost_pure {α : Type} (a : α) (n : ℕ) : AddsAtMost (pure a : AgentM α) n :=
  fun _ => Nat.le_add_right _ _

/-- A throw issues no call. -/
theorem addsAtMost_throwErr {α : Type} (e : String) (n : ℕ) :
    AddsAtMost (throwErr e : AgentM α) n :=
  fun _ => Nat.le_add_right _ _

/-- Any single collaborator call adds at most one REFINE call. -/
theorem addsAtMost_callLLM (o : LLMOracle) (tag : CallTag) :
    AddsAtMost (callLLM o tag) 1 := by
  intro tr
  have hcount : countRefine (tr ++ [tag]) ≤ countRefine tr + 1 := by
    unfold countRefine
    rw [List.count_append]
    exact Nat.add_le_add_left (List.count_le_length _ _) _
  unfold callLLM
  cases o tr.length <;> simpa using hcount
/-- A collaborator call with a non-REFINE tag adds no REFINE call. -/
theorem addsAtMost_callLLM_ne (o : LLMOracle) (tag : CallTag)
    (h : tag ≠ CallTag.refine) (n : ℕ) : AddsAtMost (callLLM o tag) n := by
  intro tr
  have hcount : countRefine (tr ++ [tag]) = countRefine tr := by
    unfold countRefine
    rw [List.count_append]
    have : List.count CallTag.refine [tag] = 0 := by
      cases tag
      case refine => exact absurd rfl h
      all_goals decide
    omega
  unfold callLLM
  cases o tr.length <;> simp [hcount]

/-- REFINE-count bound for a bound computation. -/
theorem addsAtMost_bind {α β : Type} {x : AgentM α} {f : α → AgentM β} {m n : ℕ}
    (hx : AddsAtMost x m) (hf : ∀ a, AddsAtMost (f a) n) :
    AddsAtMost (x >>= f) (m + n) := by
  intro tr
  rw [AgentM.bind_def]
  rcases hxtr : x tr with ⟨r, tr1⟩
  have hx1 := hx tr
  rw [hxtr] at hx1
  cases r with
  | ok a =>
    have hf1 := hf a tr1
    calc countRefine ((f a tr1).2) ≤ countRefine tr1 + n := hf1
      _ ≤ (countRefine tr + m) + n := Nat.add_le_add_right hx1 n
      _ = countRefine tr + (m + n) := by omega
  | error e => simpa using le_trans hx1 (by omega)

/-- Left-unit variant of the bind bound. -/
theorem addsAtMost_bind_left0 {α β : Type} {x : AgentM α} {f : α → AgentM β} {n : ℕ}
    (hx : AddsAtMost x 0) (hf : ∀ a, AddsAtMost (f a) n) : AddsAtMost (x >>= f) n := by
  have := addsAtMost_bind hx hf
  rwa [Nat.zero_add] at this

/-- Right-unit variant of the bind bound. -/
theorem addsAtMost_bind_right0 {α β : Type} {x : AgentM α} {f : α → AgentM β} {n : ℕ}
    (hx : AddsAtMost x n) (hf : ∀ a, AddsAtMost (f a) 0) : AddsAtMost (x >>= f) n := by
  have := addsAtMost_bind hx hf
  rwa [Nat.add_zero] at this

/-- Inversion of a successful bound run. -/
theorem run_bind_ok {α β : Type} {x : AgentM α} {f : α → AgentM β}
    {tr tr' : List CallTag} {out : β}
    (h : (x >>= f) tr = (.ok out, tr')) :
    ∃ a tr1, x tr = (.ok a, tr1) ∧ f a tr1 = (.ok out, tr') := by
  rw [AgentM.bind_def] at h
  rcases hxtr : x tr with ⟨r, tr1⟩
  rw [hxtr] at h
  cases r with
  | ok a => exact ⟨a, tr1, rfl, h⟩
  | error e => simp at h

/-- When the shared REFINE step succeeds, the recorded refine response
(when present) is exactly the text the agent proceeds with. -/
theorem refineStep_spec (o : LLMOracle) (b : Bool) (ext : Str)
    (tr tr' : List CallTag) (rs : Str × Option Str)
    (h : refineStep o b ext tr = (.ok rs, tr')) :
    ∀ r, rs.2 = some r → rs.1 = r := by
  intro r hr
  unfold refineStep at h
  cases b with
  | false =>
    rw [if_neg (by simp), AgentM.pure_def] at h
    have : rs = (ext, none) := by
      have := congrArg Prod.fst h
      simpa using this.symm
    rw [this] at hr
    simp at hr
  | true =>
    rw [if_pos rfl] at h
    obtain ⟨resp, tr1, hc, hp⟩ := run_bind_ok h
    rw [AgentM.pure_def] at hp
    have : rs = (resp, some resp) := by
      have := congrArg Prod.fst hp
      simpa using this.symm
    rw [this] at hr ⊢
    have : some resp = some r := by simpa using hr
    simpa using this

/-- Bound for a two-way branch. -/
theorem addsAtMost_ite {α : Type} {c : Prop} [Decidable c] {x y : AgentM α} {n : ℕ}
    (hx : AddsAtMost x n) (hy : AddsAtMost y n) : AddsAtMost (if c then x else y) n := by
  by_cases h : c
  · rwa [if_pos h]
  · rwa [if_neg h]

/-- The REFINE step issues at most one (REFINE-tagged) call. -/
theorem refineStep_addsAtMost (o : LLMOracle) (b : Bool) (ext : Str) :
    AddsAtMost (refineStep o b ext) 1 := by
  unfold refineStep
  exact addsAtMost_ite
    (addsAtMost_bind_right0 (addsAtMost_callLLM o .refine) fun r => addsAtMost_pure _ 0)
    (addsAtMost_pure _ 1)

/-- The line PLAN step issues no REFINE call. -/
theorem linePlanStep_addsAtMost (o : LLMOracle) (qt : Option QueryType) :
    AddsAtMost (linePlanStep o qt) 0 := by
  unfold linePlanStep
  cases qt with
  | some q => exact addsAtMost_pure _ 0
  | none =>
    exact addsAtMost_bind_left0 (addsAtMost_callLLM_ne o .plan (by decide) 0)
      fun r => addsAtMost_pure _ 0

/-- The line EXTRACT step issues no REFINE call. -/
theorem lineExtractStep_addsAtMost (o : LLMOracle) (a : Str) (b : Bool) :
    AddsAtMost (lineExtractStep o a b) 0 := by
  unfold lineExtractStep
  cases parseCoordinates a with
  | none => exact addsAtMost_callLLM_ne o .extract (by decide) 0
  | some l =>
    exact addsAtMost_ite (addsAtMost_pure _ 0) (addsAtMost_callLLM_ne o .extract (by decide) 0)

/-- The line REFLECT step issues no REFINE call. -/
theorem lineReflectStep_addsAtMost (o : LLMOracle) (b1 b2 b3 : Bool) :
    AddsAtMost (lineReflectStep o b1 b2 b3) 0 := by
  unfold lineReflectStep
  exact addsAtMost_ite (addsAtMost_pure _ 0)
    (addsAtMost_ite
      (addsAtMost_bind_left0 (addsAtMost_callLLM_ne o .reflect (by decide) 0)
        fun r => addsAtMost_pure _ 0)
      (addsAtMost_pure _ 0))

/-- The line-agent body issues at most one REFINE call. -/
theorem runLineBody_addsAtMost (o : LLMOracle) (dir : Option String) (u a : Str)
    (qt : Option QueryType) : AddsAtMost (runLineBody o dir u a qt) 1 := by
  simp only [runLineBody]
  refine addsAtMost_bind_left0 (linePlanStep_addsAtMost o qt) fun isTwoPoints0 => ?_
  refine addsAtMost_bind_left0 (lineExtractStep_addsAtMost o a _) fun extractResponse => ?_
  refine addsAtMost_bind_left0 (lineReflectStep_addsAtMost o _ _ _) fun needsRefinement => ?_
  exact addsAtMost_bind_right0 (refineStep_addsAtMost o _ _) fun rs => addsAtMost_pure _ 0

/-- The point PLAN step issues no REFINE call. -/
theorem pointPlanStep_addsAtMost (o : LLMOracle) (qt : Option QueryType) :
    AddsAtMost (pointPlanStep o qt) 0 := by
  unfold pointPlanStep
  cases qt with
  | some q => exact addsAtMost_pure _ 0
  | none =>
    exact addsAtMost_bind_left0 (addsAtMost_callLLM_ne o .plan (by decide) 0)
      fun r => addsAtMost_pure _ 0

/-- The point REFLECT step issues no REFINE call. -/
theorem pointReflectStep_addsAtMost (o : LLMOracle) (b : Bool) :
    AddsAtMost (pointReflectStep o b) 0 := by
  unfold pointReflectStep
  exact addsAtMost_ite
    (addsAtMost_bind_left0 (addsAtMost_callLLM_ne o .reflect (by decide) 0)
      fun r => addsAtMost_pure _ 0)
    (addsAtMost_pure _ 0)

/-- The point-agent body issues at most one REFINE call. -/
theorem runPointBody_addsAtMost (o : LLMOracle) (u a : Str)
    (qt : Option QueryType) : AddsAtMost (runPointBody o u a qt) 1 := by
  simp only [runPointBody]
  refine addsAtMost_bind_left0 (pointPlanStep_addsAtMost o qt) fun isSingle => ?_
  refine addsAtMost_bind_left0 (addsAtMost_callLLM_ne o .extract (by decide) 0)
    fun extractResponse => ?_
  refine addsAtMost_bind_left0 (pointReflectStep_addsAtMost o _) fun needsRefinement => ?_
  exact addsAtMost_bind_right0 (refineStep_addsAtMost o _ _) fun rs => addsAtMost_pure _ 0

/-- The polygon PLAN step issues no REFINE call. -/
theorem polyPlanStep_addsAtMost (o : LLMOracle) (qt : Option QueryType) (b : Bool) :
    AddsAtMost (polyPlanStep o qt b) 0 := by
  unfold polyPlanStep
  cases qt with
  | some q => exact addsAtMost_pure _ 0
  | none =>
    exact addsAtMost_bind_left0 (addsAtMost_callLLM_ne o .plan (by decide) 0)
      fun r => addsAtMost_pure _ 0

/-- The polygon EXTRACT step issues no REFINE call. -/
theorem polyExtractStep_addsAtMost (o : LLMOracle) (a : Str) :
    AddsAtMost (polyExtractStep o a) 0 := by
  unfold polyExtractStep
  cases parseCoordinates a with
  | none => exact addsAtMost_callLLM_ne o .extract (by decide) 0
  | some l =>
    exact addsAtMost_ite (addsAtMost_pure _ 0) (addsAtMost_callLLM_ne o .extract (by decide) 0)

/-- The polygon REFLECT step issues no REFINE call. -/
theorem polyReflectStep_addsAtMost (o : LLMOracle) (b : Bool) (n : ℕ) :
    AddsAtMost (polyReflectStep o b n) 0 := by
  unfold polyReflectStep
  exact addsAtMost_ite (addsAtMost_pure _ 0)
    (addsAtMost_ite
      (addsAtMost_bind_left0 (addsAtMost_callLLM_ne o .reflect (by decide) 0)
        fun r => addsAtMost_pure _ 0)
      (addsAtMost_pure _ 0))

/-- The polygon-agent body issues at most one REFINE call. -/
theorem runPolyBody_addsAtMost (o : LLMOracle) (u a : Str)
    (qt : Option QueryType) : AddsAtMost (runPolyBody o u a qt) 1 := by
  simp only [runPolyBody]
  refine addsAtMost_bind_left0 (polyPlanStep_addsAtMost o qt _) fun isMulti => ?_
  refine addsAtMost_bind_left0 (polyExtractStep_addsAtMost o a) fun extractResponse => ?_
  refine addsAtMost_bind_left0 (polyReflectStep_addsAtMost o _ _) fun needsRefinement => ?_
  refine addsAtMost_bind_right0 (refineStep_addsAtMost o _ _) fun rs => ?_
  exact addsAtMost_ite (addsAtMost_throwErr _ 0) (addsAtMost_pure _ 0)

/-- On a successful line-agent run, a recorded refine response is
exactly the text VALIDATE proceeds with. -/
theorem runLineBody_refined (o : LLMOracle) (dir : Option String) (u a : Str)
    (qt : Option QueryType) (out : LineOut) (tr : List CallTag)
    (h : runAgent (runLineBody o dir u a qt) = (.ok out, tr)) :
    ∀ r, out.refined = some r → out.finalText = r := by
  simp only [runAgent, runLineBody] at h
  obtain ⟨b1, tr1, h1, h⟩ := run_bind_ok h
  try dsimp only at h
  obtain ⟨ext, tr2, h2, h⟩ := run_bind_ok h
  try dsimp only at h
  obtain ⟨nr, tr3, h3, h⟩ := run_bind_ok h
  try dsimp only at h
  obtain ⟨rs, tr4, h4, h⟩ := run_bind_ok h
  try dsimp only at h
  rw [AgentM.pure_def] at h
  have hfst := congrArg Prod.fst h
  dsimp only at hfst
  have hout := Except.ok.inj hfst
  intro r hr
  rw [← hout] at hr ⊢
  exact refineStep_spec o nr ext tr3 tr4 rs h4 r hr

/-- On a successful point-agent run, a recorded refine response is
exactly the text VALIDATE proceeds with. -/
theorem runPointBody_refined (o : LLMOracle) (u a : Str)
    (qt : Option QueryType) (out : PointOut) (tr : List CallTag)
    (h : runAgent (runPointBody o u a qt) = (.ok out, tr)) :
    ∀ r, out.refined = some r → out.finalText = r := by
  simp only [runAgent, runPointBody] at h
  obtain ⟨b1, tr1, h1, h⟩ := run_bind_ok h
  try dsimp only at h
  obtain ⟨ext, tr2, h2, h⟩ := run_bind_ok h
  try dsimp only at h
  obtain ⟨nr, tr3, h3, h⟩ := run_bind_ok h
  try dsimp only at h
  obtain ⟨rs, tr4, h4, h⟩ := run_bind_ok h
  try dsimp only at h
  rw [AgentM.pure_def] at h
  have hfst := congrArg Prod.fst h
  dsimp only at hfst
  have hout := Except.ok.inj hfst
  intro r hr
  rw [← hout] at hr ⊢
  exact refineStep_spec o nr ext tr3 tr4 rs h4 r hr

/-- On a successful polygon-agent run, a recorded refine response is
exactly the text VALIDATE proceeds with. -/
theorem runPolyBody_refined (o : LLMOracle) (u a : Str)
    (qt : Option QueryType) (out : PolyOut) (tr : List CallTag)
    (h : runAgent (runPolyBody o u a qt) = (.ok out, tr)) :
    ∀ r, out.refined = some r → out.finalText = r := by
  simp only [runAgent, runPolyBody] at h
  obtain ⟨b1, tr1, h1, h⟩ := run_bind_ok h
  try dsimp only at h
  obtain ⟨ext, tr2, h2, h⟩ := run_bind_ok h
  try dsimp only at h
  obtain ⟨nr, tr3, h3, h⟩ := run_bind_ok h
  try dsimp only at h
  obtain ⟨rs, tr4, h4, h⟩ := run_bind_ok h
  try dsimp only at h
  split at h
  · rw [show (throwErr "No valid polygons extracted" : AgentM PolyOut) tr4 =
        (.error "No valid polygons extracted", tr4) from rfl] at h
    exact absurd (congrArg Prod.fst h) (by simp)
  · rw [AgentM.pure_def] at h
    have hfst := congrArg Prod.fst h
    dsimp only at hfst
    have hout := Except.ok.inj hfst
    intro r hr
    rw [← hout] at hr ⊢
    exact refineStep_spec o nr ext tr3 tr4 rs h4 r hr

/-- C4: in the point, line and polygon agents, every invocation issues
at most one REFINE call to the text-completion collaborator, and after
that single refinement the agent proceeds to VALIDATE with exactly the
text the refinement returned (whatever it is), never refining again. -/
theorem refine_runs_at_most_once :
    (∀ (o : LLMOracle) (dir : Option String) (u a : Str) (qt : Option QueryType),
       countRefine (runAgent (runLineBody o dir u a qt)).2 ≤ 1 ∧
       ∀ out tr, runAgent (runLineBody o dir u a qt) = (.ok out, tr) →
         ∀ r, out.refined = some r → out.finalText = r) ∧
    (∀ (o : LLMOracle) (u a : Str) (qt : Option QueryType),
       countRefine (runAgent (runPointBody o u a qt)).2 ≤ 1 ∧
       ∀ out tr, runAgent (runPointBody o u a qt) = (.ok out, tr) →
         ∀ r, out.refined = some r → out.finalText = r) ∧
    (∀ (o : LLMOracle) (u a : Str) (qt : Option QueryType),
       countRefine (runAgent (runPolyBody o u a qt)).2 ≤ 1 ∧
       ∀ out tr, runAgent (runPolyBody o u a qt) = (.ok out, tr) →
         ∀ r, out.refined = some r → out.finalText = r) := by
  refine ⟨fun o dir u a qt => ⟨?_, fun out tr h => runLineBody_refined o dir u a qt out tr h⟩,
    fun o u a qt => ⟨?_, fun out tr h => runPointBody_refined o u a qt out tr h⟩,
    fun o u a qt => ⟨?_, fun out tr h => runPolyBody_refined o u a qt out tr h⟩⟩
  · simpa [countRefine] using runLineBody_addsAtMost o dir u a qt []
  · simpa [countRefine] using runPointBody_addsAtMost o u a qt []
  · simpa [countRefine] using runPolyBody_addsAtMost o u a qt []

/-- Witness for the single-refinement theorem: a concrete line-agent
run (route-single subtype, extraction returning one pair) that
triggers exactly one REFINE call and proceeds to VALIDATE with the
refine response. -/
theorem refine_runs_at_most_once_witness :
    countRefine [CallTag.extract, CallTag.refine] ≤ 1 ∧
      (⟨"none".toList, some "none".toList, none, LineDisplay.nothing⟩ : LineOut).finalText =
        "none".toList := by
  have h := refine_runs_at_most_once.1
    (fun n => if n = 0 then Except.ok "40.7,-74.0".toList else Except.ok "none".toList)
    none "route from new york to boston".toList []
    (some ⟨.line, .routeSingle⟩)
  constructor
  · have htr : (runAgent (runLineBody
        (fun n => if n = 0 then Except.ok "40.7,-74.0".toList else Except.ok "none".toList)
        none "route from new york to boston".toList []
        (some ⟨.line, .routeSingle⟩))).2 = [CallTag.extract, CallTag.refine] := rfl
    rw [← htr]
    exact h.1
  · exact h.2
      ⟨"none".toList, some "none".toList, none, LineDisplay.nothing⟩
      [CallTag.extract, CallTag.refine] rfl "none".toList rfl

/-- Inductive match semantics: `MSem re t i j` holds when `re` can
match the span `[i, j)` of `t`.  (The quantifier and lookahead cases
are over-approximated — enough for the soundness direction used
below.) -/
inductive MSem : RE → Str → ℕ → ℕ → Prop
  | eps (t : Str) (i : ℕ) : MSem .eps t i i
  | cls (p : Char → Bool) (t : Str) (i : ℕ) (c : Char) :
      t[i]? = some c → p c = true → MSem (.cls p) t i (i + 1)
  | seq (a b : RE) (t : Str) (i j k : ℕ) :
      MSem a t i j → MSem b t j k → MSem (.seq a b) t i k
  | altL (a b : RE) (t : Str) (i j : ℕ) : MSem a t i j → MSem (.alt a b) t i j
  | altR (a b : RE) (t : Str) (i j : ℕ) : MSem b t i j → MSem (.alt a b) t i j
  | star (p : Char → Bool) (t : Str) (i m : ℕ) : MSem (.starCls p) t i (i + m)
  | lazy (p : Char → Bool) (t : Str) (i m : ℕ) : MSem (.lazyStarCls p) t i (i + m)
  | group (idx : ℕ) (a : RE) (t : Str) (i j : ℕ) :
      MSem a t i j → MSem (.group idx a) t i j
  | nla (a : RE) (t : Str) (i : ℕ) : MSem (.nla a) t i i
  | wordB (t : Str) (i : ℕ) : MSem .wordB t i i
  | startA (t : Str) (i : ℕ) : MSem .startA t i i
  | endA (t : Str) (i : ℕ) : MSem .endA t i i

/-- Soundness of the greedy-run backtracking loop. -/
theorem starDesc_sound (k : ℕ → Option (ℕ × Caps)) (i : ℕ) :
    ∀ m r, starDesc k i m = some r → ∃ j, j ≤ m ∧ k (i + j) = some r := by
  intro m
  induction m with
  | zero =>
    intro r h
    exact ⟨0, le_refl 0, by simpa [starDesc] using h⟩
  | succ m ih =>
    intro r h
    rw [starDesc] at h
    cases hk : k (i + (m + 1)) with
    | none =>
      rw [hk] at h
      simp only [] at h
      obtain ⟨j, hj, hkj⟩ := ih r h
      exact ⟨j, Nat.le_succ_of_le hj, hkj⟩
    | some r0 =>
      rw [hk] at h
      simp only [] at h
      exact ⟨m + 1, le_refl _, by rw [hk, h]⟩

/-- Soundness of the lazy-run backtracking loop. -/
theorem lazyAsc_sound (k : ℕ → Option (ℕ × Caps)) (i : ℕ) :
    ∀ left j r, lazyAsc k i left j = some r → ∃ d, k (i + (j + d)) = some r := by
  intro left
  induction left with
  | zero =>
    intro j r h
    exact ⟨0, by simpa [lazyAsc] using h⟩
  | succ left ih =>
    intro j r h
    rw [lazyAsc] at h
    cases hk : k (i + j) with
    | none =>
      rw [hk] at h
      simp only [] at h
      obtain ⟨d, hd⟩ := ih (j + 1) r h
      exact ⟨d + 1, by rw [show j + (d + 1) = j + 1 + d by omega]; exact hd⟩
    | some r0 =>
      rw [hk] at h
      simp only [] at h
      exact ⟨0, by rw [Nat.add_zero, hk, h]⟩

/-- Soundness of the CPS matcher against the inductive semantics: a
successful run found a span for `re` and then ran the continuation at
its end. -/
theorem matchA_sound :
    ∀ (re : RE) (t : Str) (i : ℕ) (caps : Caps)
      (k : ℕ → Caps → Option (ℕ × Caps)) (r : ℕ × Caps),
      matchA re t i caps k = some r →
      ∃ j caps1, MSem re t i j ∧ k j caps1 = some r := by
  intro re
  induction re with
  | eps =>
    intro t i caps k r h
    exact ⟨i, caps, .eps t i, by simpa [matchA] using h⟩
  | cls p =>
    intro t i caps k r h
    rw [matchA] at h
    cases hc : t[i]? with
    | none => rw [hc] at h; simp only [] at h; exact absurd h (by simp)
    | some c =>
      rw [hc] at h
      simp only [] at h
      cases hp : p c with
      | false => rw [hp] at h; simp at h
      | true =>
        rw [hp] at h
        simp only [if_true] at h
        exact ⟨i + 1, caps, .cls p t i c hc hp, h⟩
  | seq a b iha ihb =>
    intro t i caps k r h
    rw [matchA] at h
    obtain ⟨j, caps1, hsa, hk⟩ := iha t i caps _ r h
    obtain ⟨j2, caps2, hsb, hk2⟩ := ihb t j caps1 _ r hk
    exact ⟨j2, caps2, .seq a b t i j j2 hsa hsb, hk2⟩
  | alt a b iha ihb =>
    intro t i caps k r h
    rw [matchA] at h
    cases ha : matchA a t i caps k with
    | none =>
      rw [ha] at h
      simp only [] at h
      obtain ⟨j, caps1, hs, hk⟩ := ihb t i caps k r h
      exact ⟨j, caps1, .altR a b t i j hs, hk⟩
    | some r0 =>
      rw [ha] at h
      simp only [] at h
      obtain ⟨j, caps1, hs, hk⟩ := iha t i caps k r0 ha
      have hrr : r0 = r := by simpa using h
      exact ⟨j, caps1, .altL a b t i j hs, by rw [← hrr]; exact hk⟩
  | starCls p =>
    intro t i caps k r h
    rw [matchA] at h
    obtain ⟨j, hj, hk⟩ := starDesc_sound _ i (runLen p t i) r h
    exact ⟨i + j, caps, .star p t i j, hk⟩
  | lazyStarCls p =>
    intro t i caps k r h
    rw [matchA] at h
    obtain ⟨d, hd⟩ := lazyAsc_sound _ i (runLen p t i) 0 r h
    exact ⟨i + (0 + d), caps, .lazy p t i (0 + d), hd⟩
  | group idx a iha =>
    intro t i caps k r h
    rw [matchA] at h
    obtain ⟨j, caps1, hs, hk⟩ := iha t i caps _ r h
    exact ⟨j, (idx, i, j) :: caps1, .group idx a t i j hs, hk⟩
  | nla a iha =>
    intro t i caps k r h
    rw [matchA] at h
    cases ha : matchA a t i caps (fun j caps1 => some (j, caps1)) with
    | none =>
      rw [ha] at h
      simp only [] at h
      exact ⟨i, caps, .nla a t i, h⟩
    | some r0 => rw [ha] at h; simp at h
  | wordB =>
    intro t i caps k r h
    rw [matchA] at h
    cases hb : atWordBoundary t i with
    | false => rw [hb] at h; simp at h
    | true =>
      rw [hb] at h
      simp only [if_true] at h
      exact ⟨i, caps, .wordB t i, h⟩
  | startA =>
    intro t i caps k r h
    rw [matchA] at h
    by_cases hi : i = 0
    · rw [if_pos hi] at h
      exact ⟨i, caps, .startA t i, h⟩
    · rw [if_neg hi] at h; exact absurd h (by simp)
  | endA =>
    intro t i caps k r h
    rw [matchA] at h
    by_cases hi : i = t.length
    · rw [if_pos hi] at h
      exact ⟨i, caps, .endA t i, h⟩
    · rw [if_neg hi] at h; exact absurd h (by simp)

/-- Spans never run backwards. -/
theorem MSem_le {re : RE} {t : Str} {i j : ℕ} (h : MSem re t i j) : i ≤ j := by
  induction h with
  | eps => exact le_refl _
  | cls => exact Nat.le_succ _
  | seq a b t i j k _ _ ih1 ih2 => exact le_trans ih1 ih2
  | altL _ _ _ _ _ _ ih => exact ih
  | altR _ _ _ _ _ _ ih => exact ih
  | star => exact Nat.le_add_right _ _
  | lazy => exact Nat.le_add_right _ _
  | group _ _ _ _ _ _ ih => exact ih
  | nla => exact le_refl _
  | wordB => exact le_refl _
  | startA => exact le_refl _
  | endA => exact le_refl _

/-- Syntactic criterion: every successful match of the expression must
consume at least one character of class `P`. -/
def needsCls (P : Char → Bool) : RE → Prop
  | .cls p => ∀ c, p c = true → P c = true
  | .seq a b => needsCls P a ∨ needsCls P b
  | .alt a b => needsCls P a ∧ needsCls P b
  | .group _ a => needsCls P a
  | _ => False

/-- A match of an expression that needs class `P` contains a position,
inside the span, holding a character of class `P`. -/
theorem MSem_needsCls {P : Char → Bool} :
    ∀ {re : RE} {t : Str} {i j : ℕ}, needsCls P re → MSem re t i j →
      ∃ pos c, i ≤ pos ∧ pos < j ∧ t[pos]? = some c ∧ P c = true := by
  intro re t i j hneed hsem
  induction hsem with
  | eps => exact absurd hneed (by simp [needsCls])
  | cls p t i c hc hp =>
    exact ⟨i, c, le_refl i, Nat.lt_succ_self i, hc, hneed c hp⟩
  | seq a b t i j k hsa hsb ih1 ih2 =>
    rcases hneed with hna | hnb
    · obtain ⟨pos, c, h1, h2, h3, h4⟩ := ih1 hna
      exact ⟨pos, c, h1, lt_of_lt_of_le h2 (MSem_le hsb), h3, h4⟩
    · obtain ⟨pos, c, h1, h2, h3, h4⟩ := ih2 hnb
      exact ⟨pos, c, le_trans (MSem_le hsa) h1, h2, h3, h4⟩
  | altL a b t i j hs ih => exact ih hneed.1
  | altR a b t i j hs ih => exact ih hneed.2
  | star => exact absurd hneed (by simp [needsCls])
  | lazy => exact absurd hneed (by simp [needsCls])
  | group idx a t i j hs ih => exact ih hneed
  | nla => exact absurd hneed (by simp [needsCls])
  | wordB => exact absurd hneed (by simp [needsCls])
  | startA => exact absurd hneed (by simp [needsCls])
  | endA => exact absurd hneed (by simp [needsCls])

/-- A successful fueled search returns a match at its reported start,
at or after the search origin. -/
theorem findFromF_sound (re : RE) (t : Str) :
    ∀ fuel i s e caps, findFromF re t fuel i = some (s, e, caps) →
      matchAt re t s = some (e, caps) ∧ i ≤ s := by
  intro fuel
  induction fuel with
  | zero => intro i s e caps h; exact absurd h (by simp [findFromF])
  | succ fuel ih =>
    intro i s e caps h
    rw [findFromF] at h
    cases hm : matchAt re t i with
    | some jc =>
      obtain ⟨j0, c0⟩ := jc
      rw [hm] at h
      simp only [] at h
      have h2 := Option.some.inj h
      simp only [Prod.mk.injEq] at h2
      obtain ⟨h3, h4, h5⟩ := h2
      subst h3; subst h4; subst h5
      exact ⟨hm, le_refl _⟩
    | none =>
      rw [hm] at h
      simp only [] at h
      by_cases hi : i < t.length
      · rw [if_pos hi] at h
        obtain ⟨h1, h2⟩ := ih (i + 1) s e caps h
        exact ⟨h1, by omega⟩
      · rw [if_neg hi] at h
        exact absurd h (by simp)

/-- `findFrom` soundness. -/
theorem findFrom_sound {re : RE} {t : Str} {i s e : ℕ} {caps : Caps}
    (h : findFrom re t i = some (s, e, caps)) :
    matchAt re t s = some (e, caps) ∧ i ≤ s :=
  findFromF_sound re t _ i s e caps h

/-- needsCls instance for the shared number sub-pattern. -/
theorem needsCls_numberRE : needsCls (fun _ => true) numberRE := by
  have hshape : numberRE =
      .seq (.alt (.cls fun c => c = '-') .eps)
        (.seq (.seq (.cls isDigitC) (.starCls isDigitC))
          (.seq (.alt (.cls fun c => c = '.') .eps)
            (.seq (.cls isDigitC) (.starCls isDigitC)))) := rfl
  rw [hshape]
  simp only [needsCls]
  refine Or.inr (Or.inl (Or.inl ?_))
  intro c _
  trivial

/-- Every match of one of the three coordinate patterns consumes at
least one character. -/
theorem coordPat_strict (pat : RE)
    (hpat : needsCls (fun _ => true) pat) :
    ∀ (t : Str) (i e : ℕ) (caps : Caps), matchAt pat t i = some (e, caps) → i < e := by
  intro t i e caps h
  obtain ⟨j, caps1, hsem, hk⟩ := matchA_sound pat t i [] _ _ h
  have hje : j = e := by
    have := Option.some.inj hk
    simpa using congrArg Prod.fst this
  obtain ⟨pos, c, h1, h2, _, _⟩ := MSem_needsCls hpat hsem
  omega

/-- The three coordinate patterns all start with the number group. -/
theorem needsCls_coordPat1 : needsCls (fun _ => true) coordPat1 := by
  have hshape : ∃ rest, coordPat1 = .seq (.group 1 numberRE) rest := ⟨_, rfl⟩
  obtain ⟨rest, hr⟩ := hshape
  rw [hr]
  exact Or.inl needsCls_numberRE

/-- needsCls for pattern 2. -/
theorem needsCls_coordPat2 : needsCls (fun _ => true) coordPat2 := by
  have hshape : ∃ rest, coordPat2 = .seq (.group 1 numberRE) rest := ⟨_, rfl⟩
  obtain ⟨rest, hr⟩ := hshape
  rw [hr]
  exact Or.inl needsCls_numberRE

/-- needsCls for pattern 3. -/
theorem needsCls_coordPat3 : needsCls (fun _ => true) coordPat3 := by
  have hshape : ∃ rest, coordPat3 = .seq (.group 1 numberRE) rest := ⟨_, rfl⟩
  obtain ⟨rest, hr⟩ := hshape
  rw [hr]
  exact Or.inl needsCls_numberRE

/-- Successive `g`-flag matches have strictly increasing start
positions (given a pattern that always consumes). -/
theorem execLoop_chain (re : RE) (t : Str)
    (hre : ∀ (i e : ℕ) (caps : Caps), matchAt re t i = some (e, caps) → i < e) :
    ∀ fuel pos, (∀ m ∈ execLoop re t fuel pos, pos ≤ m.1) ∧
      ((execLoop re t fuel pos).map (fun m => m.1)).Chain' (· < ·) := by
  intro fuel
  induction fuel with
  | zero => intro pos; simp [execLoop]
  | succ fuel ih =>
    intro pos
    rw [execLoop]
    cases hf : findFrom re t pos with
    | none => simp
    | some m =>
      obtain ⟨s, e, caps⟩ := m
      have hsound := findFrom_sound hf
      have hse : s < e := hre s e caps hsound.1
      simp only []
      rw [if_neg (by omega)]
      constructor
      · intro m hm
        rcases List.mem_cons.mp hm with h1 | h2
        · rw [h1]; exact hsound.2
        · have := (ih e).1 m h2
          omega
      · rw [List.map_cons, List.chain'_cons']
        refine ⟨?_, (ih e).2⟩
        intro b hb
        cases hl : execLoop re t fuel e with
        | nil => rw [hl] at hb; simp at hb
        | cons m0 tl =>
          rw [hl] at hb
          simp only [List.map_cons, List.head?_cons] at hb
          have hb2 : m0.1 = b := by simpa using hb
          have hmem : m0 ∈ execLoop re t fuel e := by
            rw [hl]; exact List.mem_cons_self _ _
          have := (ih e).1 m0 hmem
          omega

/-- Mapping a filterMap is a sublist of mapping the whole list when
the projections agree. -/
theorem filterMap_map_sublist {α β γ : Type} (l : List α) (f : α → Option β)
    (g : β → γ) (h : α → γ) (hfg : ∀ x y, f x = some y → g y = h x) :
    ((l.filterMap f).map g).Sublist (l.map h) := by
  induction l with
  | nil => simp
  | cons a l ih =>
    rw [List.map_cons]
    cases hfa : f a with
    | none =>
      rw [List.filterMap_cons_none hfa]
      exact (ih).cons (h a)
    | some b =>
      rw [List.filterMap_cons_some hfa, List.map_cons, hfg a b hfa]
      exact (ih).cons₂ (h a)

/-- The match positions of one extraction pass are strictly
increasing. -/
theorem coordPassMatches_chain (re : RE) (t : Str)
    (hpat : needsCls (fun _ => true) re) :
    ((coordPassMatches re t).map (fun m => m.1.1)).Chain' (· < ·) := by
  have hre := coordPat_strict re hpat t
  have hchain := (execLoop_chain re t (fun i e caps h => hre i e caps h) (t.length + 1) 0).2
  have hsub : ((coordPassMatches re t).map (fun m => m.1.1)).Sublist
      ((execList re t).map (fun m => m.1)) := by
    unfold coordPassMatches execList
    apply filterMap_map_sublist
    intro x y hf
    rcases hc1 : capGet t x.2.2 1 with _ | a
    · rw [hc1] at hf; simp at hf
    · rcases hc2 : capGet t x.2.2 2 with _ | b
      · rw [hc1, hc2] at hf; simp at hf
      · rw [hc1, hc2] at hf
        simp only [] at hf
        have := Option.some.inj hf
        rw [← this]
  exact List.Chain'.sublist hchain hsub

/-- The collected output pairs are a subsequence of the pass-match
values, in order. -/
theorem collectValid_sublist :
    ∀ (ms : List ((ℕ × ℕ) × ℚ × ℚ)) (seen : List (ℚ × ℚ)),
      (collectValid ms seen).Sublist (ms.map (fun m => m.2)) := by
  intro ms
  induction ms with
  | nil => intro seen; simp [collectValid]
  | cons m rest ih =>
    intro seen
    rw [collectValid, List.map_cons]
    split
    · have : (m.2.1, m.2.2) = m.2 := rfl
      rw [this]
      exact (ih _).cons₂ m.2
    · exact (ih _).cons m.2

/-- C7 (amended): the coordinate parser returns pairs in pass-major
order — all pattern-1 matches first, then the new pattern-2 matches,
then the new pattern-3 matches — and within each pass the pairs follow
strictly increasing first-match positions; the output is the ordered,
deduplicated, range-checked subsequence of those pass matches.  (The
original claim of a single global text order fails across passes.) -/
theorem parseCoordinates_pass_major_order (t : Str) :
    ((coordPassMatches coordPat1 t).map (fun m => m.1.1)).Chain' (· < ·) ∧
    ((coordPassMatches coordPat2 t).map (fun m => m.1.1)).Chain' (· < ·) ∧
    ((coordPassMatches coordPat3 t).map (fun m => m.1.1)).Chain' (· < ·) ∧
    ((parseCoordinates t).getD []).Sublist
      ((coordPassMatches coordPat1 t ++ coordPassMatches coordPat2 t ++
        coordPassMatches coordPat3 t).map (fun m => m.2)) := by
  refine ⟨coordPassMatches_chain _ t needsCls_coordPat1,
    coordPassMatches_chain _ t needsCls_coordPat2,
    coordPassMatches_chain _ t needsCls_coordPat3, ?_⟩
  unfold parseCoordinates
  split
  · simp
  · simp only []
    split
    · simp
    · have h := collectValid_sublist (coordPassMatches coordPat1 t ++
        coordPassMatches coordPat2 t ++ coordPassMatches coordPat3 t) []
      simpa using h

/-- Counterexample text for the cross-pass ordering question: a plain
decimal pair followed by a degree-notation pair. -/
def c7text : Str := "40.7,-74.0 and 30.3° N, 78.0° E".toList

/-- C7 is false as stated: on this text the degree pattern (pass 1)
matches at position 15 and the plain pattern (pass 2) at position 0,
yet `parseCoordinates` returns the pass-1 pair `(30.3, 78)` before the
pass-2 pair `(40.7, -74)` — pass order, not text order. -/
theorem coords_cross_pass_out_of_order :
    coordPassMatches coordPat1 c7text = [((15, 29), 303/10, 78)] ∧
    coordPassMatches coordPat2 c7text = [((0, 10), 407/10, -74)] ∧
    coordPassMatches coordPat3 c7text = [((0, 11), 407/10, -74)] ∧
    parseCoordinates c7text = some [(303/10, 78), (407/10, -74)] := by
  have hv1 : parseDec ['3','0','.','3'] = 303/10 := by
    have h : parseDec ['3','0','.','3']
        = ((30:ℕ):ℚ) + ((3:ℕ):ℚ)/(10:ℚ)^(1:ℕ) := rfl
    rw [h]; norm_num
  have hv2 : parseDec ['7','8','.','0'] = 78 := by
    have h : parseDec ['7','8','.','0']
        = ((78:ℕ):ℚ) + ((0:ℕ):ℚ)/(10:ℚ)^(1:ℕ) := rfl
    rw [h]; norm_num
  have hv3 : parseDec ['4','0','.','7'] = 407/10 := by
    have h : parseDec ['4','0','.','7']
        = ((40:ℕ):ℚ) + ((7:ℕ):ℚ)/(10:ℚ)^(1:ℕ) := rfl
    rw [h]; norm_num
  have hv4 : parseDec ['-','7','4','.','0'] = -74 := by
    have h : parseDec ['-','7','4','.','0']
        = -(((74:ℕ):ℚ) + ((0:ℕ):ℚ)/(10:ℚ)^(1:ℕ)) := rfl
    rw [h]; norm_num
  have h1 : coordPassMatches coordPat1 c7text
      = [((15, 29), parseDec ['3','0','.','3'], parseDec ['7','8','.','0'])] := rfl
  have h2 : coordPassMatches coordPat2 c7text
      = [((0, 10), parseDec ['4','0','.','7'], parseDec ['-','7','4','.','0'])] := rfl
  have h3 : coordPassMatches coordPat3 c7text
      = [((0, 11), parseDec ['4','0','.','7'], parseDec ['-','7','4','.','0'])] := rfl
  have h1' : coordPassMatches coordPat1 c7text = [((15, 29), 303/10, 78)] := by
    rw [h1, hv1, hv2]
  have h2' : coordPassMatches coordPat2 c7text = [((0, 10), 407/10, -74)] := by
    rw [h2, hv3, hv4]
  have h3' : coordPassMatches coordPat3 c7text = [((0, 11), 407/10, -74)] := by
    rw [h3, hv3, hv4]
  refine ⟨h1', h2', h3', ?_⟩
  have hnone : (c7text.isEmpty
      || hasSub (lowerStr c7text) ['n', 'o', 'n', 'e']) = false := rfl
  have hcv : collectValid ([((15, 29), (303/10 : ℚ), (78 : ℚ))]
      ++ [((0, 10), 407/10, -74)] ++ [((0, 11), 407/10, -74)]) []
      = [(303/10, 78), (407/10, -74)] := by
    norm_num [collectValid, List.mem_cons, Prod.ext_iff]
  simp only [parseCoordinates, hnone, Bool.false_eq_true, if_false]
  rw [h1', h2', h3', hcv]
  rfl

/-- Facts about digit characters, by case analysis on the digit. -/
theorem digitChar_facts (x : ℕ) (hx : x < 10) :
    isDigitC (digitChar x) = true ∧ (digitChar x).toNat - 48 = x ∧
    digitChar x ≠ '.' ∧ digitChar x ≠ '-' ∧ isWsC (digitChar x) = false ∧
    digitChar x ≠ '°' ∧ lowerChar (digitChar x) ≠ 'n' ∧
    (lowerChar (digitChar x) = 'n' ∨ lowerChar (digitChar x) = 's') = False ∧
    (lowerChar (digitChar x) = 'e' ∨ lowerChar (digitChar x) = 'w') = False := by
  interval_cases x <;> simp [digitChar, isDigitC, isWsC, lowerChar]

/-- A digit run followed by a non-digit boundary is what `takeWhile`
keeps. -/
theorem takeWhile_digit_run (ds : List ℕ) (hds : ∀ x ∈ ds, x < 10) (rest : Str)
    (hbnd : ∀ c, rest.head? = some c → isDigitC c = false) :
    (ds.map digitChar ++ rest).takeWhile isDigitC = ds.map digitChar := by
  induction ds with
  | nil =>
    cases rest with
    | nil => rfl
    | cons c r =>
      simp only [List.map_nil, List.nil_append, List.takeWhile_cons]
      rw [hbnd c rfl]
      simp
  | cons d ds ih =>
    simp only [List.map_cons, List.cons_append, List.takeWhile_cons]
    rw [(digitChar_facts d (hds d (by simp))).1]
    simp only [if_true]
    rw [ih (fun x hx => hds x (by simp [hx]))]

/-- A run length is zero when the next character misses the class. -/
theorem runLen_zero (p : Char → Bool) (t : Str) (i : ℕ)
    (h : ∀ c, (t.drop i).head? = some c → p c = false) : runLen p t i = 0 := by
  rw [runLen]
  cases hd : t.drop i with
  | nil => rfl
  | cons c r =>
    rw [List.takeWhile_cons, h c (by rw [hd]; rfl)]
    rfl

/-- Run length over an explicit digit run. -/
theorem runLen_digit_run (t : Str) (i : ℕ) (ds : List ℕ) (rest : Str)
    (hds : ∀ x ∈ ds, x < 10)
    (hdrop : t.drop i = ds.map digitChar ++ rest)
    (hbnd : ∀ c, rest.head? = some c → isDigitC c = false) :
    runLen isDigitC t i = ds.length := by
  rw [runLen, hdrop, takeWhile_digit_run ds hds rest hbnd, List.length_map]

/-- Index lookup through a known drop. -/
theorem getElem_of_drop {t X : Str} {i : ℕ} (h : t.drop i = X) (n : ℕ) :
    t[i + n]? = X[n]? := by
  rw [← h]
  exact (List.getElem?_drop t i n).symm

/-- Drop shifting through a known drop. -/
theorem drop_of_drop {t X : Str} {i : ℕ} (h : t.drop i = X) (n : ℕ) :
    t.drop (i + n) = X.drop n := by
  rw [← h, List.drop_drop, Nat.add_comm]

/-- A text with no occurrence of the first needle character has no
occurrence of the needle. -/
theorem hasSub_false (c0 : Char) (rest : Str) :
    ∀ hay : Str, (∀ c ∈ hay, c ≠ c0) → hasSub hay (c0 :: rest) = false := by
  intro hay
  induction hay with
  | nil => intro _; rfl
  | cons c t ih =>
    intro hmem
    rw [hasSub]
    have hst : startsWith (c :: t) (c0 :: rest) = false := by
      rw [startsWith]
      have : (c = c0 : Bool) = false := by
        simp only [decide_eq_false_iff_not]
        exact hmem c (by simp)
      rw [this, Bool.false_and]
    rw [hst]
    simp only [Bool.false_eq_true, if_false]
    exact ih (fun x hx => hmem x (by simp [hx]))

/-- First-attempt success of the greedy loop. -/
theorem starDesc_hit (k : ℕ → Option (ℕ × Caps)) (i n : ℕ) (r : ℕ × Caps)
    (h : k (i + n) = some r) : starDesc k i n = some r := by
  cases n with
  | zero => simpa [starDesc] using h
  | succ m => rw [starDesc, h]

/-- Failed first attempt of the greedy loop steps to the next one. -/
theorem starDesc_miss (k : ℕ → Option (ℕ × Caps)) (i m : ℕ)
    (h : k (i + (m + 1)) = none) : starDesc k i (m + 1) = starDesc k i m := by
  rw [starDesc, h]

/-- `matchA` step lemmas, one per construct. -/
theorem matchA_cls_hit {p : Char → Bool} {t : Str} {i : ℕ} {caps : Caps}
    {k : ℕ → Caps → Option (ℕ × Caps)} {c : Char}
    (hc : t[i]? = some c) (hp : p c = true) :
    matchA (.cls p) t i caps k = k (i + 1) caps := by
  rw [matchA, hc]
  simp only [hp, if_true]

/-- A class fails on a missing character. -/
theorem matchA_cls_none {p : Char → Bool} {t : Str} {i : ℕ} {caps : Caps}
    {k : ℕ → Caps → Option (ℕ × Caps)} (hc : t[i]? = none) :
    matchA (.cls p) t i caps k = none := by
  rw [matchA, hc]

/-- A class fails on a character outside it. -/
theorem matchA_cls_miss {p : Char → Bool} {t : Str} {i : ℕ} {caps : Caps}
    {k : ℕ → Caps → Option (ℕ × Caps)} {c : Char}
    (hc : t[i]? = some c) (hp : p c = false) :
    matchA (.cls p) t i caps k = none := by
  rw [matchA, hc]
  simp only [hp, Bool.false_eq_true, if_false]

/-- Sequencing unfolds to continuation composition. -/
theorem matchA_seq {a b : RE} {t : Str} {i : ℕ} {caps : Caps}
    {k : ℕ → Caps → Option (ℕ × Caps)} :
    matchA (.seq a b) t i caps k
      = matchA a t i caps fun j caps1 => matchA b t j caps1 k := by
  rw [matchA]

/-- A succeeding left alternative decides the alternation. -/
theorem matchA_alt_hit {a b : RE} {t : Str} {i : ℕ} {caps : Caps}
    {k : ℕ → Caps → Option (ℕ × Caps)} {r : ℕ × Caps}
    (h : matchA a t i caps k = some r) : matchA (.alt a b) t i caps k = some r := by
  rw [matchA, h]

/-- A failing left alternative falls through to the right one. -/
theorem matchA_alt_miss {a b : RE} {t : Str} {i : ℕ} {caps : Caps}
    {k : ℕ → Caps → Option (ℕ × Caps)}
    (h : matchA a t i caps k = none) :
    matchA (.alt a b) t i caps k = matchA b t i caps k := by
  rw [matchA, h]

/-- Empty pattern passes straight to the continuation. -/
theorem matchA_eps {t : Str} {i : ℕ} {caps : Caps}
    {k : ℕ → Caps → Option (ℕ × Caps)} : matchA .eps t i caps k = k i caps := by
  rw [matchA]

/-- Group unfolds to a capture-recording continuation. -/
theorem matchA_group {idx : ℕ} {a : RE} {t : Str} {i : ℕ} {caps : Caps}
    {k : ℕ → Caps → Option (ℕ × Caps)} :
    matchA (.group idx a) t i caps k
      = matchA a t i caps fun j caps1 => k j ((idx, i, j) :: caps1) := by
  rw [matchA]

/-- Greedy star over a class is the descending loop over the run. -/
theorem matchA_star {p : Char → Bool} {t : Str} {i n : ℕ} {caps : Caps}
    {k : ℕ → Caps → Option (ℕ × Caps)} (hrun : runLen p t i = n) :
    matchA (.starCls p) t i caps k = starDesc (fun j => k j caps) i n := by
  rw [matchA, hrun]

/-- A negative lookahead whose body fails passes to the continuation. -/
theorem matchA_nla_pass {a : RE} {t : Str} {i : ℕ} {caps : Caps}
    {k : ℕ → Caps → Option (ℕ × Caps)}
    (h : matchA a t i caps (fun j caps1 => some (j, caps1)) = none) :
    matchA (.nla a) t i caps k = k i caps := by
  rw [matchA, h]

/-- Matching `\d+` against a full digit run with a non-digit boundary:
the greedy first attempt hands the continuation the end of the run. -/
theorem digitRun_hit (ds : List ℕ) (hne : ds ≠ []) (hds : ∀ x ∈ ds, x < 10)
    (t : Str) (i : ℕ) (rest : Str)
    (hdrop : t.drop i = ds.map digitChar ++ rest)
    (hbnd : ∀ c, rest.head? = some c → isDigitC c = false)
    (caps : Caps) (k : ℕ → Caps → Option (ℕ × Caps)) (r : ℕ × Caps)
    (hk : k (i + ds.length) caps = some r) :
    matchA (.seq (.cls isDigitC) (.starCls isDigitC)) t i caps k = some r := by
  obtain ⟨d0, ds', rfl⟩ : ∃ d0 ds', ds = d0 :: ds' := by
    cases ds with
    | nil => exact absurd rfl hne
    | cons d0 ds' => exact ⟨d0, ds', rfl⟩
  have hc0 : t[i]? = some (digitChar d0) := by
    have h := getElem_of_drop hdrop 0
    rw [Nat.add_zero] at h
    rw [h]
    simp
  rw [matchA_seq, matchA_cls_hit hc0 ((digitChar_facts d0 (hds d0 (by simp))).1)]
  try simp only []
  have hdrop1 : t.drop (i + 1) = ds'.map digitChar ++ rest := by
    have h := drop_of_drop hdrop 1
    simpa using h
  have hrun : runLen isDigitC t (i + 1) = ds'.length :=
    runLen_digit_run t (i + 1) ds' rest (fun x hx => hds x (by simp [hx])) hdrop1 hbnd
  rw [matchA_star hrun]
  apply starDesc_hit
  have harith : i + 1 + ds'.length = i + (d0 :: ds').length := by
    simp only [List.length_cons]
    omega
  rw [harith]
  exact hk

/-- Backtracking variant: the continuation refuses the full run but
accepts the run minus its last character (this is how `\d+\.?\d+`
matches a plain integer of two or more digits). -/
theorem digitRun_back (ds : List ℕ) (hlen : 2 ≤ ds.length) (hds : ∀ x ∈ ds, x < 10)
    (t : Str) (i : ℕ) (rest : Str)
    (hdrop : t.drop i = ds.map digitChar ++ rest)
    (hbnd : ∀ c, rest.head? = some c → isDigitC c = false)
    (caps : Caps) (k : ℕ → Caps → Option (ℕ × Caps)) (r : ℕ × Caps)
    (hfail : k (i + ds.length) caps = none)
    (hk : k (i + ds.length - 1) caps = some r) :
    matchA (.seq (.cls isDigitC) (.starCls isDigitC)) t i caps k = some r := by
  obtain ⟨d0, ds', rfl⟩ : ∃ d0 ds', ds = d0 :: ds' := by
    cases ds with
    | nil => exact absurd hlen (by simp)
    | cons d0 ds' => exact ⟨d0, ds', rfl⟩
  obtain ⟨m, hm⟩ : ∃ m, ds'.length = m + 1 := by
    cases hd : ds' with
    | nil => rw [hd] at hlen; exact absurd hlen (by simp)
    | cons x xs => exact ⟨xs.length, by simp⟩
  have hc0 : t[i]? = some (digitChar d0) := by
    have h := getElem_of_drop hdrop 0
    rw [Nat.add_zero] at h
    rw [h]
    simp
  rw [matchA_seq, matchA_cls_hit hc0 ((digitChar_facts d0 (hds d0 (by simp))).1)]
  try simp only []
  have hdrop1 : t.drop (i + 1) = ds'.map digitChar ++ rest := by
    have h := drop_of_drop hdrop 1
    simpa using h
  have hrun : runLen isDigitC t (i + 1) = m + 1 := by
    rw [runLen_digit_run t (i + 1) ds' rest (fun x hx => hds x (by simp [hx])) hdrop1 hbnd]
    exact hm
  rw [matchA_star hrun]
  rw [starDesc_miss _ _ _ (by
    have harith : i + 1 + (m + 1) = i + (d0 :: ds').length := by
      simp only [List.length_cons]
      omega
    rw [harith]
    exact hfail)]
  apply starDesc_hit
  have harith2 : i + 1 + m = i + (d0 :: ds').length - 1 := by
    simp only [List.length_cons]
    omega
  rw [harith2]
  exact hk

/-- The unsigned core `\d+\.?\d+` of the number pattern. -/
def numCore : RE :=
  .seq (.seq (.cls isDigitC) (.starCls isDigitC))
    (.seq (.alt (.cls fun c => c = '.') .eps)
      (.seq (.cls isDigitC) (.starCls isDigitC)))

/-- The number pattern is an optional sign before the core. -/
theorem numberRE_shape : numberRE = .seq (.alt (.cls fun c => c = '-') .eps) numCore := rfl

/-- Digit count of an optional fraction part. -/
def fpCount : Option (List ℕ) → ℕ
  | some l => l.length
  | none => 0

/-- Text of an optional fraction part. -/
def fpStr : Option (List ℕ) → Str
  | some l => '.' :: l.map digitChar
  | none => []

/-- Character span of an optional fraction part. -/
def fpSpan : Option (List ℕ) → ℕ
  | some l => 1 + l.length
  | none => 0

/-- Digit count through `fpCount`. -/
theorem DecLit.digitCount_eq (d : DecLit) :
    d.digitCount = d.ip.length + fpCount d.fp := by
  rw [DecLit.digitCount]
  cases d.fp <;> rfl

/-- Rendering through `fpStr`. -/
theorem DecLit.render_eq (d : DecLit) :
    d.render = (if d.neg then ['-'] else []) ++ d.ip.map digitChar ++ fpStr d.fp := by
  rw [DecLit.render]
  cases d.fp <;> rfl

/-- Rendering length through `fpSpan`. -/
theorem DecLit.render_length (d : DecLit) :
    d.render.length = (if d.neg then 1 else 0) + d.ip.length + fpSpan d.fp := by
  rw [DecLit.render_eq]
  cases d.neg <;> cases d.fp <;> simp [fpStr, fpSpan] <;> omega

/-- The unsigned core matches the digits-dot-digits body of a decimal
rendering exactly, handing the continuation the position after it. -/
theorem numCore_hit (ipd : List ℕ) (fpd : Option (List ℕ))
    (hip : ipd ≠ []) (hipd : ∀ x ∈ ipd, x < 10)
    (hfp : ∀ l, fpd = some l → l ≠ [] ∧ ∀ x ∈ l, x < 10)
    (h2 : 2 ≤ ipd.length + fpCount fpd)
    (t : Str) (i : ℕ) (rest : Str)
    (hdrop : t.drop i = ipd.map digitChar ++ fpStr fpd ++ rest)
    (hbnd : ∀ c, rest.head? = some c → isDigitC c = false ∧ c ≠ '.')
    (caps : Caps) (k : ℕ → Caps → Option (ℕ × Caps)) (r : ℕ × Caps)
    (hk : k (i + ipd.length + fpSpan fpd) caps = some r) :
    matchA numCore t i caps k = some r := by
  rw [numCore, matchA_seq]
  cases fpd with
  | some l =>
    obtain ⟨hlne, hld⟩ := hfp l rfl
    rw [fpStr] at hdrop
    rw [fpSpan] at hk
    rw [List.append_assoc] at hdrop
    apply digitRun_hit ipd hip hipd t i _ hdrop
      (by intro c hc; simp only [List.cons_append, List.head?_cons] at hc
          rw [← Option.some.inj hc]; rfl)
    try simp only []
    have hdropj : t.drop (i + ipd.length) = '.' :: (l.map digitChar ++ rest) := by
      have h := drop_of_drop hdrop ipd.length
      rw [h, ← List.length_map ipd digitChar, List.drop_left]
      simp
    have hcj : t[i + ipd.length]? = some '.' := by
      have h := getElem_of_drop hdropj 0
      rw [Nat.add_zero] at h
      rw [h]
      simp
    rw [matchA_seq]
    apply matchA_alt_hit
    rw [matchA_cls_hit hcj (by simp)]
    try simp only []
    have hdropj1 : t.drop (i + ipd.length + 1) = l.map digitChar ++ rest := by
      have h := drop_of_drop hdropj 1
      simpa using h
    apply digitRun_hit l hlne hld t _ rest hdropj1 (fun c hc => (hbnd c hc).1)
    have harith : i + ipd.length + 1 + l.length = i + ipd.length + (1 + l.length) := by
      omega
    rw [harith]
    exact hk
  | none =>
    rw [fpStr, List.append_nil] at hdrop
    rw [fpSpan, Nat.add_zero] at hk
    rw [fpCount] at h2
    have hlen2 : 2 ≤ ipd.length := by omega
    apply digitRun_back ipd hlen2 hipd t i rest hdrop (fun c hc => (hbnd c hc).1)
    · -- the continuation fails at the end of the full digit run
      have hdropj : t.drop (i + ipd.length) = rest := by
        have h := drop_of_drop hdrop ipd.length
        rw [h, ← List.length_map ipd digitChar, List.drop_left]
      cases hr : rest with
      | nil =>
        have hnone : t[i + ipd.length]? = none := by
          have h := getElem_of_drop hdropj 0
          rw [Nat.add_zero] at h
          rw [h, hr]
          simp
        rw [matchA_seq, matchA_alt_miss (matchA_cls_none hnone), matchA_eps]
        try simp only []
        rw [matchA_seq, matchA_cls_none hnone]
      | cons c r' =>
        have hsome : t[i + ipd.length]? = some c := by
          have h := getElem_of_drop hdropj 0
          rw [Nat.add_zero] at h
          rw [h, hr]
          simp
        obtain ⟨hcd, hcdot⟩ := hbnd c (by rw [hr]; rfl)
        rw [matchA_seq, matchA_alt_miss (matchA_cls_miss hsome
          (by simp only [decide_eq_false_iff_not]; exact hcdot)), matchA_eps]
        try simp only []
        rw [matchA_seq, matchA_cls_miss hsome hcd]
    · -- it succeeds one character earlier, on the last digit
      obtain ⟨ys, z, hsplit⟩ : ∃ ys z, ipd = ys ++ [z] := by
        cases hrev : ipd.reverse with
        | nil => exact absurd (by simpa using congrArg List.reverse hrev) hip
        | cons z ys =>
          exact ⟨ys.reverse, z, by
            have h := congrArg List.reverse hrev
            simpa using h⟩
      have hz10 : z < 10 := hipd z (by rw [hsplit]; simp)
      have hdropy : t.drop (i + ys.length) = digitChar z :: rest := by
        have h := drop_of_drop hdrop ys.length
        rw [h, hsplit]
        rw [List.map_append, List.append_assoc, ← List.length_map ys digitChar,
          List.drop_left]
        simp
      have hcy : t[i + ys.length]? = some (digitChar z) := by
        have h := getElem_of_drop hdropy 0
        rw [Nat.add_zero] at h
        rw [h]
        simp
      have harith : i + ipd.length - 1 = i + ys.length := by
        rw [hsplit]
        simp
      rw [harith]
      rw [matchA_seq, matchA_alt_miss (matchA_cls_miss hcy
        (by simp only [decide_eq_false_iff_not]
            exact (digitChar_facts z hz10).2.2.1)), matchA_eps]
      try simp only []
      apply digitRun_hit [z] (by simp) (by simpa using hz10) t _ rest
        (by simpa using hdropy) (fun c hc => (hbnd c hc).1)
      have harith2 : i + ys.length + [z].length = i + ipd.length := by
        rw [hsplit]
        simp
        omega
      rw [harith2]
      exact hk

/-- The signed number pattern matches a full decimal rendering, handing
the continuation the position after it. -/
theorem numberRE_hit (d : DecLit) (hv : d.valid) (h2 : 2 ≤ d.digitCount)
    (t : Str) (i : ℕ) (rest : Str)
    (hdrop : t.drop i = d.render ++ rest)
    (hbnd : ∀ c, rest.head? = some c → isDigitC c = false ∧ c ≠ '.')
    (caps : Caps) (k : ℕ → Caps → Option (ℕ × Caps)) (r : ℕ × Caps)
    (hk : k (i + d.render.length) caps = some r) :
    matchA numberRE t i caps k = some r := by
  obtain ⟨hip, hipd, hfp⟩ := hv
  rw [DecLit.digitCount_eq] at h2
  rw [numberRE_shape, matchA_seq]
  cases hneg : d.neg with
  | true =>
    have hdrop' : t.drop i = '-' ::
        ((d.ip.map digitChar ++ fpStr d.fp) ++ rest) := by
      rw [hdrop, DecLit.render_eq, hneg]
      simp
    have hc : t[i]? = some '-' := by
      have h := getElem_of_drop hdrop' 0
      rw [Nat.add_zero] at h
      rw [h]
      simp
    apply matchA_alt_hit
    rw [matchA_cls_hit hc (by simp)]
    try simp only []
    have hdrop1 : t.drop (i + 1) = d.ip.map digitChar ++ fpStr d.fp ++ rest := by
      have h := drop_of_drop hdrop' 1
      simpa [List.append_assoc] using h
    apply numCore_hit d.ip d.fp hip hipd hfp h2 t (i + 1) rest hdrop1 hbnd
    have harith : i + 1 + d.ip.length + fpSpan d.fp = i + d.render.length := by
      rw [DecLit.render_length, hneg]
      simp
      omega
    rw [harith]
    exact hk
  | false =>
    obtain ⟨d0, ds', hds⟩ : ∃ d0 ds', d.ip = d0 :: ds' := by
      cases hi : d.ip with
      | nil => exact absurd hi hip
      | cons d0 ds' => exact ⟨d0, ds', rfl⟩
    have hdrop' : t.drop i = d.ip.map digitChar ++ fpStr d.fp ++ rest := by
      rw [hdrop, DecLit.render_eq, hneg]
      simp
    have hc : t[i]? = some (digitChar d0) := by
      have h := getElem_of_drop hdrop' 0
      rw [Nat.add_zero] at h
      rw [h, hds]
      simp
    rw [matchA_alt_miss (matchA_cls_miss hc
      (by simp only [decide_eq_false_iff_not]
          exact (digitChar_facts d0 (hipd d0 (by rw [hds]; simp))).2.2.2.1)), matchA_eps]
    try simp only []
    apply numCore_hit d.ip d.fp hip hipd hfp h2 t i rest hdrop' hbnd
    have harith : i + d.ip.length + fpSpan d.fp = i + d.render.length := by
      rw [DecLit.render_length, hneg]
      simp
      omega
    rw [harith]
    exact hk

/-- A pattern that needs class `P` cannot match in a text without `P`
characters. -/
theorem matchAt_none_of_needsCls {P : Char → Bool} {re : RE} (hre : needsCls P re)
    {t : Str} (ht : ∀ (pos : ℕ) (c : Char), t[pos]? = some c → P c = false) (i : ℕ) :
    matchAt re t i = none := by
  cases hm : matchAt re t i with
  | none => rfl
  | some r =>
    rw [matchAt] at hm
    obtain ⟨j, caps1, hsem, _⟩ := matchA_sound re t i [] _ r hm
    obtain ⟨pos, c, _, _, hts, hPc⟩ := MSem_needsCls hre hsem
    rw [ht pos c hts] at hPc
    exact absurd hPc (by simp)

/-- A consuming pattern cannot match at or beyond the end of the
text. -/
theorem matchAt_none_at_end {re : RE} (hre : needsCls (fun _ => true) re)
    {t : Str} {i : ℕ} (hi : t.length ≤ i) : matchAt re t i = none := by
  cases hm : matchAt re t i with
  | none => rfl
  | some r =>
    rw [matchAt] at hm
    obtain ⟨j, caps1, hsem, _⟩ := matchA_sound re t i [] _ r hm
    obtain ⟨pos, c, hip, _, hts, _⟩ := MSem_needsCls hre hsem
    rw [List.getElem?_eq_none (by omega)] at hts
    exact absurd hts (by simp)

/-- Fueled search fails when no position matches. -/
theorem findFromF_none {re : RE} {t : Str}
    (h : ∀ j, matchAt re t j = none) : ∀ fuel i, findFromF re t fuel i = none := by
  intro fuel
  induction fuel with
  | zero => intro i; rfl
  | succ fuel ih =>
    intro i
    rw [findFromF, h i]
    simp only []
    by_cases hi : i < t.length
    · rw [if_pos hi]
      exact ih (i + 1)
    · rw [if_neg hi]

/-- The `g`-flag loop stops on a failing search. -/
theorem execLoop_none {re : RE} {t : Str} {pos : ℕ}
    (h : findFrom re t pos = none) : ∀ fuel, execLoop re t fuel pos = [] := by
  intro fuel
  cases fuel with
  | zero => rfl
  | succ f => rw [execLoop, h]

/-- No further match starts at the end of the text. -/
theorem findFrom_at_end {re : RE} {t : Str}
    (hre : needsCls (fun _ => true) re) : findFrom re t t.length = none := by
  rw [findFrom]
  have h1 : t.length + 1 - t.length = 0 + 1 := by omega
  rw [h1, findFromF, matchAt_none_at_end hre (le_refl _)]
  simp only []
  rw [if_neg (lt_irrefl _)]

/-- A consuming pattern matching the whole text from position 0 is the
only match the `g`-flag loop finds. -/
theorem execList_single {re : RE} {t : Str} {caps : Caps}
    (hre : needsCls (fun _ => true) re)
    (hm : matchAt re t 0 = some (t.length, caps))
    (hpos : 0 < t.length) :
    execList re t = [(0, t.length, caps)] := by
  rw [execList, execLoop, findFrom, Nat.sub_zero, findFromF, hm]
  simp only []
  rw [if_neg (by omega)]
  rw [execLoop_none (findFrom_at_end hre) t.length]

/-- The degree pattern needs a degree sign. -/
theorem needsCls_degree : needsCls (fun c => c = '°') coordPat1 := by
  have hshape : ∃ rest, coordPat1 = .seq (.group 1 numberRE)
      (.seq (.starCls isWsC) (.seq (.cls fun c => c = '°') rest)) := ⟨_, rfl⟩
  obtain ⟨rest, hr⟩ := hshape
  rw [hr]
  exact Or.inr (Or.inr (Or.inl fun c hc => hc))

/-- The degree pass finds nothing in a text without a degree sign. -/
theorem coordPat1_empty {t : Str} (ht : ∀ c ∈ t, (c = '°' : Bool) = false) :
    coordPassMatches coordPat1 t = [] := by
  rw [coordPassMatches]
  have hex : execList coordPat1 t = [] := by
    rw [execList]
    apply execLoop_none
    rw [findFrom]
    exact findFromF_none
      (matchAt_none_of_needsCls needsCls_degree
        (fun pos c hc => ht c (List.getElem?_mem hc))) _ _
  rw [hex]
  rfl

/-- A greedy class star over an empty run passes straight through. -/
theorem matchA_star_zero {p : Char → Bool} {t : Str} {i : ℕ} {caps : Caps}
    {k : ℕ → Caps → Option (ℕ × Caps)} (h : runLen p t i = 0) :
    matchA (.starCls p) t i caps k = k i caps := by
  rw [matchA_star h, starDesc]

/-- A valid rendering starts with a sign or a digit. -/
theorem render_head (d : DecLit) (hv : d.valid) :
    ∃ c rest, d.render = c :: rest ∧ (c = '-' ∨ ∃ x, x < 10 ∧ c = digitChar x) := by
  obtain ⟨hip, hipd, _⟩ := hv
  obtain ⟨d0, ds', hds⟩ : ∃ d0 ds', d.ip = d0 :: ds' := by
    cases hi : d.ip with
    | nil => exact absurd hi hip
    | cons d0 ds' => exact ⟨d0, ds', rfl⟩
  cases hn : d.neg with
  | true =>
    refine ⟨'-', d.ip.map digitChar ++ fpStr d.fp, ?_, Or.inl rfl⟩
    rw [DecLit.render_eq, hn]
    simp
  | false =>
    refine ⟨digitChar d0, ds'.map digitChar ++ fpStr d.fp, ?_,
      Or.inr ⟨d0, hipd d0 (by rw [hds]; simp), rfl⟩⟩
    rw [DecLit.render_eq, hn, hds]
    simp

/-- The plain comma pattern matches a comma-separated pair of decimal
renderings as one full-width match with the two numbers captured. -/
theorem coordPat2_full (a b : DecLit) (ha : a.valid) (hb : b.valid)
    (ha2 : 2 ≤ a.digitCount) (hb2 : 2 ≤ b.digitCount) :
    matchAt coordPat2 (a.render ++ ',' :: b.render) 0
      = some ((a.render ++ ',' :: b.render).length,
          [(2, a.render.length + 1, (a.render ++ ',' :: b.render).length),
           (1, 0, a.render.length)]) := by
  have hlen : (a.render ++ ',' :: b.render).length
      = a.render.length + 1 + b.render.length := by
    simp [List.length_append]
    omega
  rw [hlen]
  have hdropA : (a.render ++ ',' :: b.render).drop a.render.length
      = ',' :: b.render := List.drop_left _ _
  have hcomma : (a.render ++ ',' :: b.render)[a.render.length]? = some ',' := by
    have h := getElem_of_drop hdropA 0
    rw [Nat.add_zero] at h
    rw [h]
    simp
  have hdropA1 : (a.render ++ ',' :: b.render).drop (a.render.length + 1)
      = b.render := by
    have h := drop_of_drop hdropA 1
    rw [List.drop_succ_cons, List.drop_zero] at h
    exact h
  obtain ⟨cB, rB, hBr, hcB⟩ := render_head b hb
  have hws1 : runLen isWsC (a.render ++ ',' :: b.render) (a.render.length + 1) = 0 := by
    apply runLen_zero
    intro c hc
    rw [hdropA1, hBr] at hc
    simp only [List.head?_cons] at hc
    rw [← Option.some.inj hc]
    rcases hcB with h | ⟨x, hx10, hx⟩
    · rw [h]; rfl
    · rw [hx]
      exact (digitChar_facts x hx10).2.2.2.2.1
  have hws0 : runLen isWsC (a.render ++ ',' :: b.render) a.render.length = 0 := by
    apply runLen_zero
    intro c hc
    rw [hdropA] at hc
    simp only [List.head?_cons] at hc
    rw [← Option.some.inj hc]
    rfl
  have hend : (a.render ++ ',' :: b.render)[a.render.length + 1 + b.render.length]? = none :=
    List.getElem?_eq_none (by rw [hlen])
  have hshape : coordPat2 = .seq (.group 1 numberRE) (.seq (.starCls isWsC)
      (.seq (.cls isSepC) (.seq (.starCls isWsC) (.seq (.group 2 numberRE)
        (.nla (.cls fun c => c = '°' || c = 'E' || c = 'W')))))) := rfl
  rw [matchAt, hshape, matchA_seq, matchA_group]
  apply numberRE_hit a ha ha2 _ 0 (',' :: b.render) (List.drop_zero _)
    (by intro c hc
        simp only [List.head?_cons] at hc
        rw [← Option.some.inj hc]
        exact ⟨rfl, by decide⟩)
  try simp only []
  rw [Nat.zero_add]
  rw [matchA_seq, matchA_star_zero hws0]
  try simp only []
  rw [matchA_seq, matchA_cls_hit hcomma rfl]
  try simp only []
  rw [matchA_seq, matchA_star_zero hws1]
  try simp only []
  rw [matchA_seq, matchA_group]
  apply numberRE_hit b hb hb2 _ (a.render.length + 1) []
    (by rw [List.append_nil]; exact hdropA1)
    (by intro c hc; simp at hc)
  try simp only []
  rw [matchA_nla_pass (matchA_cls_none hend)]

/-- The loose pattern also matches the comma-separated pair as one
full-width match with the same two captures. -/
theorem coordPat3_full (a b : DecLit) (ha : a.valid) (hb : b.valid)
    (ha2 : 2 ≤ a.digitCount) (hb2 : 2 ≤ b.digitCount) :
    matchAt coordPat3 (a.render ++ ',' :: b.render) 0
      = some ((a.render ++ ',' :: b.render).length,
          [(2, a.render.length + 1, (a.render ++ ',' :: b.render).length),
           (1, 0, a.render.length)]) := by
  have hlen : (a.render ++ ',' :: b.render).length
      = a.render.length + 1 + b.render.length := by
    simp [List.length_append]
    omega
  rw [hlen]
  have hdropA : (a.render ++ ',' :: b.render).drop a.render.length
      = ',' :: b.render := List.drop_left _ _
  have hcomma : (a.render ++ ',' :: b.render)[a.render.length]? = some ',' := by
    have h := getElem_of_drop hdropA 0
    rw [Nat.add_zero] at h
    rw [h]
    simp
  have hdropA1 : (a.render ++ ',' :: b.render).drop (a.render.length + 1)
      = b.render := by
    have h := drop_of_drop hdropA 1
    rw [List.drop_succ_cons, List.drop_zero] at h
    exact h
  obtain ⟨cB, rB, hBr, hcB⟩ := render_head b hb
  have hws1 : runLen isWsC (a.render ++ ',' :: b.render) (a.render.length + 1) = 0 := by
    apply runLen_zero
    intro c hc
    rw [hdropA1, hBr] at hc
    simp only [List.head?_cons] at hc
    rw [← Option.some.inj hc]
    rcases hcB with h | ⟨x, hx10, hx⟩
    · rw [h]; rfl
    · rw [hx]
      exact (digitChar_facts x hx10).2.2.2.2.1
  have hws0 : runLen isWsC (a.render ++ ',' :: b.render) a.render.length = 0 := by
    apply runLen_zero
    intro c hc
    rw [hdropA] at hc
    simp only [List.head?_cons] at hc
    rw [← Option.some.inj hc]
    rfl
  have hdropEnd : (a.render ++ ',' :: b.render).drop
      (a.render.length + 1 + b.render.length) = [] := by
    rw [← hlen, List.drop_length]
  have hwsEnd : runLen isWsC (a.render ++ ',' :: b.render)
      (a.render.length + 1 + b.render.length) = 0 := by
    apply runLen_zero
    intro c hc
    rw [hdropEnd] at hc
    simp at hc
  have hend : (a.render ++ ',' :: b.render)[a.render.length + 1 + b.render.length]? = none :=
    List.getElem?_eq_none (by rw [hlen])
  have hshape : coordPat3 = .seq (.group 1 numberRE) (.seq (.starCls isWsC)
      (.seq (.alt (.cls fun c => lowerChar c = 'n' || lowerChar c = 's') .eps)
        (.seq (.starCls isWsC) (.seq (.cls isSepC) (.seq (.starCls isWsC)
          (.seq (.group 2 numberRE) (.seq (.starCls isWsC)
            (.alt (.cls fun c => lowerChar c = 'e' || lowerChar c = 'w') .eps)))))))) := rfl
  rw [matchAt, hshape, matchA_seq, matchA_group]
  apply numberRE_hit a ha ha2 _ 0 (',' :: b.render) (List.drop_zero _)
    (by intro c hc
        simp only [List.head?_cons] at hc
        rw [← Option.some.inj hc]
        exact ⟨rfl, by decide⟩)
  try simp only []
  rw [Nat.zero_add]
  rw [matchA_seq, matchA_star_zero hws0]
  try simp only []
  rw [matchA_seq, matchA_alt_miss (matchA_cls_miss hcomma (by decide)), matchA_eps]
  try simp only []
  rw [matchA_seq, matchA_star_zero hws0]
  try simp only []
  rw [matchA_seq, matchA_cls_hit hcomma rfl]
  try simp only []
  rw [matchA_seq, matchA_star_zero hws1]
  try simp only []
  rw [matchA_seq, matchA_group]
  apply numberRE_hit b hb hb2 _ (a.render.length + 1) []
    (by rw [List.append_nil]; exact hdropA1)
    (by intro c hc; simp at hc)
  try simp only []
  rw [matchA_seq, matchA_star_zero hwsEnd]
  try simp only []
  rw [matchA_alt_miss (matchA_cls_none hend), matchA_eps]

/-- Digit-character folding agrees with numeric folding. -/
theorem foldl_digits : ∀ (l : List ℕ), (∀ x ∈ l, x < 10) → ∀ acc : ℕ,
    (l.map digitChar).foldl (fun a c => 10 * a + (c.toNat - 48)) acc
      = l.foldl (fun a d => 10 * a + d) acc := by
  intro l
  induction l with
  | nil => intro _ acc; rfl
  | cons d ds ih =>
    intro hl acc
    simp only [List.map_cons, List.foldl_cons]
    rw [(digitChar_facts d (hl d (by simp))).2.1]
    exact ih (fun x hx => hl x (by simp [hx])) _

/-- Digit-string value of a rendered digit list. -/
theorem digsVal_map (l : List ℕ) (hl : ∀ x ∈ l, x < 10) :
    digsVal (l.map digitChar) = natOfDigits l := by
  rw [digsVal, natOfDigits]
  exact foldl_digits l hl 0

/-- Numeric value of an optional fraction part. -/
def fpVal : Option (List ℕ) → ℚ
  | some l => (natOfDigits l : ℚ) / (10 : ℚ) ^ l.length
  | none => 0

/-- `DecLit.val` through `fpVal`. -/
theorem DecLit.val_eq (d : DecLit) :
    d.val = if d.neg
      then -((natOfDigits d.ip : ℚ) + fpVal d.fp)
      else (natOfDigits d.ip : ℚ) + fpVal d.fp := by
  rw [DecLit.val]
  cases d.fp <;> simp [fpVal]

/-- `parseFloat` recovers the value of an unsigned rendering body. -/
theorem parseDecPos_eval (ipd : List ℕ) (fpd : Option (List ℕ))
    (hipd : ∀ x ∈ ipd, x < 10)
    (hfp : ∀ l, fpd = some l → l ≠ [] ∧ ∀ x ∈ l, x < 10) :
    parseDec.parseDecPos (ipd.map digitChar ++ fpStr fpd)
      = (natOfDigits ipd : ℚ) + fpVal fpd := by
  have htw : (ipd.map digitChar ++ fpStr fpd).takeWhile isDigitC = ipd.map digitChar := by
    apply takeWhile_digit_run ipd hipd
    intro c hc
    cases hf : fpd with
    | some l =>
      rw [hf, fpStr] at hc
      simp only [List.head?_cons] at hc
      rw [← Option.some.inj hc]
      rfl
    | none =>
      rw [hf, fpStr] at hc
      simp at hc
  have hdm : (ipd.map digitChar ++ fpStr fpd).drop (ipd.map digitChar).length
      = fpStr fpd := List.drop_left _ _
  rw [parseDec.parseDecPos]
  simp only [htw, hdm]
  cases hf : fpd with
  | some l =>
    obtain ⟨hlne, hld⟩ := hfp l hf
    have htwl : (l.map digitChar).takeWhile isDigitC = l.map digitChar := by
      have h := takeWhile_digit_run l hld [] (by intro c hc; simp at hc)
      simpa using h
    rw [fpStr, fpVal]
    simp only [htwl, digsVal_map ipd hipd, digsVal_map l hld, List.length_map]
  | none =>
    rw [fpStr, fpVal]
    simp only [digsVal_map ipd hipd]
    norm_num [digsVal]

/-- The leading-dash case of `parseFloat`. -/
theorem parseDec_cons_dash (s : Str) : parseDec ('-' :: s) = -parseDec.parseDecPos s := rfl

/-- The leading-digit case of `parseFloat`. -/
theorem parseDec_cons_digit (x : ℕ) (hx : x < 10) (s : Str) :
    parseDec (digitChar x :: s) = parseDec.parseDecPos (digitChar x :: s) := by
  interval_cases x <;> rfl

/-- `parseFloat` of a full decimal rendering recovers its exact
value. -/
theorem parseDec_render (d : DecLit) (hv : d.valid) : parseDec d.render = d.val := by
  obtain ⟨hip, hipd, hfp⟩ := hv
  obtain ⟨d0, ds', hds⟩ : ∃ d0 ds', d.ip = d0 :: ds' := by
    cases hi : d.ip with
    | nil => exact absurd hi hip
    | cons d0 ds' => exact ⟨d0, ds', rfl⟩
  rw [DecLit.render_eq, DecLit.val_eq]
  cases hn : d.neg with
  | true =>
    simp only [if_true]
    have hr : (['-'] ++ d.ip.map digitChar ++ fpStr d.fp)
        = '-' :: (d.ip.map digitChar ++ fpStr d.fp) := by simp
    rw [hr, parseDec_cons_dash, parseDecPos_eval d.ip d.fp hipd hfp]
  | false =>
    simp only [Bool.false_eq_true, if_false]
    have hr : ([] ++ d.ip.map digitChar ++ fpStr d.fp)
        = digitChar d0 :: (ds'.map digitChar ++ fpStr d.fp) := by
      rw [hds]
      simp
    rw [hr, parseDec_cons_digit d0 (hipd d0 (by rw [hds]; simp))]
    have hr2 : (digitChar d0 :: (ds'.map digitChar ++ fpStr d.fp))
        = d.ip.map digitChar ++ fpStr d.fp := by
      rw [hds]
      simp
    rw [hr2, parseDecPos_eval d.ip d.fp hipd hfp]

/-- Characters of a valid rendering. -/
theorem render_chars (d : DecLit) (hv : d.valid) :
    ∀ c ∈ d.render, c = '-' ∨ c = '.' ∨ ∃ x, x < 10 ∧ c = digitChar x := by
  obtain ⟨hip, hipd, hfp⟩ := hv
  intro c hc
  rw [DecLit.render_eq] at hc
  simp only [List.mem_append] at hc
  rcases hc with (hc | hc) | hc
  · cases hn : d.neg with
    | true =>
      rw [hn] at hc
      simp at hc
      exact Or.inl hc
    | false =>
      rw [hn] at hc
      simp at hc
  · obtain ⟨x, hx, hxc⟩ := List.mem_map.mp hc
    exact Or.inr (Or.inr ⟨x, hipd x hx, hxc.symm⟩)
  · cases hf : d.fp with
    | some l =>
      rw [hf, fpStr] at hc
      rcases List.mem_cons.mp hc with hc | hc
      · exact Or.inr (Or.inl hc)
      · obtain ⟨x, hx, hxc⟩ := List.mem_map.mp hc
        exact Or.inr (Or.inr ⟨x, (hfp l hf).2 x hx, hxc.symm⟩)
    | none =>
      rw [hf, fpStr] at hc
      simp at hc

/-- Characters of the comma-joined pair text. -/
theorem pair_chars (a b : DecLit) (ha : a.valid) (hb : b.valid) :
    ∀ c ∈ a.render ++ ',' :: b.render,
      c = ',' ∨ c = '-' ∨ c = '.' ∨ ∃ x, x < 10 ∧ c = digitChar x := by
  intro c hc
  rcases List.mem_append.mp hc with hc | hc
  · exact Or.inr (render_chars a ha c hc)
  · rcases List.mem_cons.mp hc with hc | hc
    · exact Or.inl hc
    · exact Or.inr (render_chars b hb c hc)

/-- C2 (amended): for every pair of valid decimal renderings with at
least two digit characters each (the number pattern `-?\d+\.?\d+`
cannot match a single digit) whose values are in latitude/longitude
range, the coordinate parser on the literal text `lat,lon` returns
exactly the one input pair. -/
theorem parseCoordinates_comma_pair_roundtrip (a b : DecLit)
    (ha : a.valid) (hb : b.valid)
    (ha2 : 2 ≤ a.digitCount) (hb2 : 2 ≤ b.digitCount)
    (hra : -90 ≤ a.val ∧ a.val ≤ 90) (hrb : -180 ≤ b.val ∧ b.val ≤ 180) :
    parseCoordinates (a.render ++ ',' :: b.render) = some [(a.val, b.val)] := by
  obtain ⟨cA, rA, hAr, hcA⟩ := render_head a ha
  have hchars := pair_chars a b ha hb
  have hlen : (a.render ++ ',' :: b.render).length
      = a.render.length + 1 + b.render.length := by
    simp [List.length_append]
    omega
  have hpos : 0 < (a.render ++ ',' :: b.render).length := by
    rw [hAr, List.cons_append]
    simp
  have hdropA : (a.render ++ ',' :: b.render).drop a.render.length
      = ',' :: b.render := List.drop_left _ _
  have hdropA1 : (a.render ++ ',' :: b.render).drop (a.render.length + 1)
      = b.render := by
    have h := drop_of_drop hdropA 1
    rw [List.drop_succ_cons, List.drop_zero] at h
    exact h
  -- the guard: nonempty text without the token "none"
  have hguard : ((a.render ++ ',' :: b.render).isEmpty
      || hasSub (lowerStr (a.render ++ ',' :: b.render)) ['n', 'o', 'n', 'e']) = false := by
    have h1 : (a.render ++ ',' :: b.render).isEmpty = false := by
      rw [hAr, List.cons_append]
      rfl
    have h2 : hasSub (lowerStr (a.render ++ ',' :: b.render)) ['n', 'o', 'n', 'e'] = false := by
      apply hasSub_false
      intro c hc
      obtain ⟨x, hx, hxc⟩ := List.mem_map.mp hc
      rcases hchars x hx with h | h | h | ⟨y, hy10, hy⟩
      · rw [← hxc, h]; decide
      · rw [← hxc, h]; decide
      · rw [← hxc, h]; decide
      · rw [← hxc, hy]
        exact (digitChar_facts y hy10).2.2.2.2.2.2.1
    rw [h1, h2]
    rfl
  -- pass 1 is empty: no degree sign in the text
  have hp1 : coordPassMatches coordPat1 (a.render ++ ',' :: b.render) = [] := by
    apply coordPat1_empty
    intro c hc
    simp only [decide_eq_false_iff_not]
    rcases hchars c hc with h | h | h | ⟨y, hy10, hy⟩
    · rw [h]; decide
    · rw [h]; decide
    · rw [h]; decide
    · rw [hy]
      exact (digitChar_facts y hy10).2.2.2.2.2.1
  -- captured substrings of the full-width match
  have hcap1 : capGet (a.render ++ ',' :: b.render)
      [(2, a.render.length + 1, (a.render ++ ',' :: b.render).length),
       (1, 0, a.render.length)] 1 = some a.render := by
    rw [capGet, List.find?_cons_of_neg _ (by simp), List.find?_cons_of_pos _ (by simp)]
    simp only [Nat.sub_zero, List.drop_zero]
    rw [List.take_left]
  have hcap2 : capGet (a.render ++ ',' :: b.render)
      [(2, a.render.length + 1, (a.render ++ ',' :: b.render).length),
       (1, 0, a.render.length)] 2 = some b.render := by
    rw [capGet, List.find?_cons_of_pos _ (by simp)]
    simp only []
    rw [hdropA1]
    have hsub : (a.render ++ ',' :: b.render).length - (a.render.length + 1)
        = b.render.length := by
      rw [hlen]
      omega
    rw [hsub, List.take_length]
  -- passes 2 and 3 each produce the single full-width match
  have hp2 : coordPassMatches coordPat2 (a.render ++ ',' :: b.render)
      = [((0, (a.render ++ ',' :: b.render).length), a.val, b.val)] := by
    rw [coordPassMatches,
      execList_single needsCls_coordPat2 (coordPat2_full a b ha hb ha2 hb2) hpos]
    rw [List.filterMap_cons, hcap1, hcap2]
    simp only [List.filterMap_nil]
    rw [parseDec_render a ha, parseDec_render b hb]
  have hp3 : coordPassMatches coordPat3 (a.render ++ ',' :: b.render)
      = [((0, (a.render ++ ',' :: b.render).length), a.val, b.val)] := by
    rw [coordPassMatches,
      execList_single needsCls_coordPat3 (coordPat3_full a b ha hb ha2 hb2) hpos]
    rw [List.filterMap_cons, hcap1, hcap2]
    simp only [List.filterMap_nil]
    rw [parseDec_render a ha, parseDec_render b hb]
  -- the dedup-and-range filter keeps exactly the one pair
  have hcv : collectValid
      ([((0, (a.render ++ ',' :: b.render).length), a.val, b.val)] ++
        [((0, (a.render ++ ',' :: b.render).length), a.val, b.val)]) []
      = [(a.val, b.val)] := by
    rw [List.singleton_append, collectValid]
    rw [if_pos ⟨⟨hra.1, hra.2, hrb.1, hrb.2⟩, List.not_mem_nil _⟩]
    rw [collectValid]
    rw [if_neg (fun hcon => hcon.2 (by simp))]
    rw [collectValid]
  simp only [parseCoordinates, hguard, Bool.false_eq_true, if_false]
  rw [hp1, hp2, hp3]
  simp only [List.nil_append]
  rw [hcv]
  rfl

/-- C2 is false as stated: 0 is in range and renders as the single
digit "0", yet the parser returns nothing on "0,0" — the number
pattern `-?\d+\.?\d+` cannot match fewer than two digit characters. -/
theorem parseCoordinates_single_digit_fails :
    DecLit.valid ⟨false, [0], none⟩ ∧ DecLit.val ⟨false, [0], none⟩ = 0 ∧
    DecLit.render ⟨false, [0], none⟩ = ['0'] ∧
    parseCoordinates (DecLit.render ⟨false, [0], none⟩ ++ ',' ::
      DecLit.render ⟨false, [0], none⟩) = none := by
  refine ⟨⟨by simp, by simp, fun l hl => by simp at hl⟩, ?_, rfl, rfl⟩
  rw [DecLit.val_eq]
  simp [natOfDigits, fpVal]

/-- The round-trip theorem at the concrete pair 40.7, -74. -/
theorem parseCoordinates_comma_pair_roundtrip_witness :
    parseCoordinates (DecLit.render ⟨false, [4, 0], some [7]⟩ ++ ',' ::
        DecLit.render ⟨true, [7, 4], none⟩)
      = some [(DecLit.val ⟨false, [4, 0], some [7]⟩, DecLit.val ⟨true, [7, 4], none⟩)] :=
  parseCoordinates_comma_pair_roundtrip ⟨false, [4, 0], some [7]⟩ ⟨true, [7, 4], none⟩
    ⟨by simp, by decide, fun l hl => by injection hl with h; subst h; exact ⟨by simp, by decide⟩⟩
    ⟨by simp, by decide, fun l hl => by simp at hl⟩
    (by decide) (by decide)
    (by rw [DecLit.val_eq]; norm_num [natOfDigits, fpVal])
    (by rw [DecLit.val_eq]; norm_num [natOfDigits, fpVal])
